import Mathlib

/-!
Verification of the DeckDrop move-selection core: a 3×5 connect-three game
played on an Elgato Stream Deck.  The development shallowly embeds the
TypeScript sources:

- `src/actions/game-renderer.ts` : the cell constants `EMPTY`, `PLAYER_ONE`, `PLAYER_TWO`;
- the `WinChecker` class (bundled at the end of `src/actions/ai-opponent.ts`);
- `src/actions/game-logic.ts`    : `GameLogic.makeMove`, `GameLogic.isBoardFull`;
- `src/actions/mcts-opponent.ts` : the `MCTSNode` helper class and `MCTSOpponent`.

Modelling conventions:
- a JS board `number[][]` is a `List (List Nat)`;
- the JS read `board[r][c]` is `getCell b r c : Option Nat`; an out-of-range
  read yields JS `undefined`, modelled as `none`;
- a JS strict comparison between two possibly-undefined cell reads is equality
  in `Option Nat` (`undefined === undefined` is `true`, matching `none = none`);
- callback invocations (the `onWin` / `showWinnerCallback` side effects) are
  returned as explicit lists of the argument tuples they would be called with;
- `Math.random()`-driven choices and the float-valued UCB1 child selection are
  modelled by an oracle stream of naturals, so that every behaviour the JS can
  exhibit corresponds to some oracle; theorems quantify over all oracles;
- JS float arithmetic on win statistics (sums of `0.5`/`1.0`, win rates and the
  final blended score) is modelled by exact rationals.
-/

/-- Cell constant from `game-renderer.ts`: `export const EMPTY = 0`. -/
def EMPTY : Nat := 0

/-- Cell constant from `game-renderer.ts`: `export const PLAYER_ONE = 1`. -/
def PLAYER_ONE : Nat := 1

/-- Cell constant from `game-renderer.ts`: `export const PLAYER_TWO = 2`. -/
def PLAYER_TWO : Nat := 2

/-- A JS `number[][]` game board. -/
abbrev Board := List (List Nat)

/-- The JS read `board[r][c]`; `none` models `undefined` (out-of-range read). -/
def getCell (b : Board) (r c : Nat) : Option Nat :=
  match b[r]? with
  | some row => row[c]?
  | none => none

/-- The JS write `board[r][c] = v` (a no-op when row `r` does not exist;
in the embedded code every write is to an existing row). -/
def setCell (b : Board) (r c v : Nat) : Board :=
  match b[r]? with
  | some row => b.set r (row.set c v)
  | none => b

/-- Shape well-formedness of a 3×5 board: three rows of five cells. -/
def WF (b : Board) : Prop :=
  b.length = 3 ∧ ∀ row ∈ b, row.length = 5

instance (b : Board) : Decidable (WF b) := by
  unfold WF; infer_instance

/-- The no-floating-token invariant (spec §3): in every column the occupied
cells are contiguous from the floor (row 2) upward, i.e. an occupied cell has
an occupied cell directly below it. -/
def NoFloating (b : Board) : Prop :=
  ∀ c < 5, ∀ r < 2, getCell b r c ≠ some EMPTY → getCell b (r + 1) c ≠ some EMPTY

instance (b : Board) : Decidable (NoFloating b) := by
  unfold NoFloating; infer_instance

/-- The player flip `p === PLAYER_ONE ? PLAYER_TWO : PLAYER_ONE` used
throughout `game-logic.ts` and `mcts-opponent.ts`. -/
def otherPlayer (p : Nat) : Nat :=
  if p = PLAYER_ONE then PLAYER_TWO else PLAYER_ONE

/-- The row-search loop `for (r = 2; r >= 0; r--) if (board[r][column] === EMPTY)`
that both `GameLogic.makeMove` and `MCTSOpponent.makeMove` inline: the first
empty row scanning from the floor (row 2) upward, `none` when no cell of the
column is empty (so the JS variable `row` stays `-1`). -/
def lowestEmptyRow (b : Board) (column : Nat) : Option Nat :=
  if getCell b 2 column = some EMPTY then some 2
  else if getCell b 1 column = some EMPTY then some 1
  else if getCell b 0 column = some EMPTY then some 0
  else none

namespace WinChecker

/-- The JS comparison `board[r][c] === player` inside the `WinChecker`
scanners, where `player` was itself read off the board (hence `Option Nat`). -/
def cellIs (b : Board) (r c : Nat) (player : Option Nat) : Bool :=
  decide (getCell b r c = player)

/-- A recorded invocation of the `showWinnerCallback`: the winning positions
and the player argument. -/
abbrev WinCall := List (Nat × Nat) × Option Nat

/-- The scanning loop of `WinChecker.checkHorizontalWin`: walk the remaining
columns of row `row`, tracking the current run length `count` and the column
`startCol` where the run began; report `startCol` when the run reaches 3. -/
def hScan (b : Board) (row : Nat) (player : Option Nat) :
    List Nat → Nat → Nat → Option Nat
  | [], _, _ => none
  | c :: rest, count, startCol =>
    if cellIs b row c player then
      let sc := if count = 0 then c else startCol
      if count + 1 = 3 then some sc
      else hScan b row player rest (count + 1) sc
    else hScan b row player rest 0 startCol

/-- Embeds `WinChecker.checkHorizontalWin`: scan columns 0..4 of the affected row;
on a run of three, the callback receives the three positions. -/
def checkHorizontalWin (b : Board) (row : Nat) (player : Option Nat) : Option WinCall :=
  match hScan b row player [0, 1, 2, 3, 4] 0 0 with
  | some sc => some ([(row, sc), (row, sc + 1), (row, sc + 2)], player)
  | none => none

/-- The scanning loop of `WinChecker.checkVerticalWin`, over rows of
column `col`. -/
def vScan (b : Board) (col : Nat) (player : Option Nat) :
    List Nat → Nat → Nat → Option Nat
  | [], _, _ => none
  | r :: rest, count, startRow =>
    if cellIs b r col player then
      let sr := if count = 0 then r else startRow
      if count + 1 = 3 then some sr
      else vScan b col player rest (count + 1) sr
    else vScan b col player rest 0 startRow

/-- Embeds `WinChecker.checkVerticalWin`: scan rows 0..2 of the affected column. -/
def checkVerticalWin (b : Board) (col : Nat) (player : Option Nat) : Option WinCall :=
  match vScan b col player [0, 1, 2] 0 0 with
  | some sr => some ([(sr, col), (sr + 1, col), (sr + 2, col)], player)
  | none => none

/-- Embeds `WinChecker.checkDiagonalDownWin`: the top-left→bottom-right diagonals
start only at row 0, columns 0..2 (the in-bounds guard `r+2 < 3 && c+2 < 5`
is always true there). -/
def checkDiagonalDownWin (b : Board) (player : Option Nat) : Option WinCall :=
  match [0, 1, 2].find? (fun c =>
      cellIs b 0 c player && cellIs b 1 (c + 1) player && cellIs b 2 (c + 2) player) with
  | some c => some ([(0, c), (1, c + 1), (2, c + 2)], player)
  | none => none

/-- Embeds `WinChecker.checkDiagonalUpWin`: the bottom-left→top-right diagonals
start only at row 2, columns 0..2. -/
def checkDiagonalUpWin (b : Board) (player : Option Nat) : Option WinCall :=
  match [0, 1, 2].find? (fun c =>
      cellIs b 2 c player && cellIs b 1 (c + 1) player && cellIs b 0 (c + 2) player) with
  | some c => some ([(2, c), (1, c + 1), (0, c + 2)], player)
  | none => none

/-- Embeds `WinChecker.checkWinner`: read the player at the last-move cell (the JS
`const player = board[row][col]`, inlined here) and try
the four line families in order, short-circuiting (`||` in the source) on the
first hit; the payload records the single callback invocation. -/
def checkWinner (b : Board) (row col : Nat) : Option WinCall :=
  match checkHorizontalWin b row (getCell b row col) with
  | some call => some call
  | none =>
    match checkVerticalWin b col (getCell b row col) with
    | some call => some call
    | none =>
      match checkDiagonalDownWin b (getCell b row col) with
      | some call => some call
      | none => checkDiagonalUpWin b (getCell b row col)

end WinChecker

namespace GameLogic

/-- The mutable state owned by `GameLogic`: the board, the player to move and
the game-over flag (fields `board`, `currentPlayer`, `gameOver`). -/
structure GameState where
  board : Board
  currentPlayer : Nat
  gameOver : Bool
deriving DecidableEq, Repr

/-- Embeds `GameLogic.isBoardFull`: scan all 15 cells (column-outer, row-inner);
full iff no cell is `EMPTY`. -/
def isBoardFull (b : Board) : Bool :=
  [0, 1, 2, 3, 4].all fun c => [0, 1, 2].all fun r => !(decide (getCell b r c = some EMPTY))

/-- Embeds `GameLogic.makeMove`: returns the JS boolean result, the state after the
call, and the list of `onWin` invocations (arguments the callback received).
Rejected moves (game over, or no empty row found) return `false` and leave the
state untouched; accepted moves place the mover's token at the lowest empty
row, then check for a win (terminal, `onWin` fired once), then for a full
board (terminal, no callback), and otherwise flip the mover. -/
def makeMove (s : GameState) (column : Nat) : Bool × GameState × List WinChecker.WinCall :=
  if s.gameOver then (false, s, [])
  else
    match lowestEmptyRow s.board column with
    | none => (false, s, [])
    | some row =>
      let board' := setCell s.board row column s.currentPlayer
      match WinChecker.checkWinner board' row column with
      | some call =>
        (true, { board := board', currentPlayer := s.currentPlayer, gameOver := true }, [call])
      | none =>
        if isBoardFull board' then
          (true, { board := board', currentPlayer := s.currentPlayer, gameOver := true }, [])
        else
          (true, { board := board', currentPlayer := otherPlayer s.currentPlayer,
                   gameOver := false }, [])

end GameLogic

namespace MCTSOpponent

/-- Embeds `MCTSOpponent.getValidMoves` (duplicated verbatim as `MCTSNode.getValidMoves`
in the source): the columns 0..4 whose entry cell (row 0) is `EMPTY`. -/
def getValidMoves (b : Board) : List Nat :=
  [0, 1, 2, 3, 4].filter fun c => decide (getCell b 0 c = some EMPTY)

/-- Embeds `MCTSOpponent.isBoardFull` (duplicated as `MCTSNode.isBoardFull`): the
board counts as full when no column's entry cell (row 0) is `EMPTY`. -/
def isBoardFull (b : Board) : Bool :=
  [0, 1, 2, 3, 4].all fun c => !(decide (getCell b 0 c = some EMPTY))

/-- One cell test `board[r][c] === player` of `MCTSOpponent.checkWin`, where
`player` is a plain number. -/
def cellEq (b : Board) (r c player : Nat) : Bool :=
  decide (getCell b r c = some player)

/-- Embeds `MCTSOpponent.checkWin` (duplicated as `MCTSNode.checkWin`): whether
`player` has three in a row anywhere.  Loop bounds as in the source:
horizontal runs start at rows 0..2, columns 0..2; vertical runs only at row 0
(`row <= 0`), columns 0..4; down-right diagonals at row 0, columns 0..2;
up-right diagonals at row 2 (the `row >= 2` guard inside the descending loop
keeps only `row = 2`), columns 0..2. -/
def checkWin (b : Board) (player : Nat) : Bool :=
  ([0, 1, 2].any fun row => [0, 1, 2].any fun col =>
      cellEq b row col player && cellEq b row (col + 1) player && cellEq b row (col + 2) player)
  || ([0, 1, 2, 3, 4].any fun col =>
      cellEq b 0 col player && cellEq b 1 col player && cellEq b 2 col player)
  || ([0, 1, 2].any fun col =>
      cellEq b 0 col player && cellEq b 1 (col + 1) player && cellEq b 2 (col + 2) player)
  || ([0, 1, 2].any fun col =>
      cellEq b 2 col player && cellEq b 1 (col + 1) player && cellEq b 0 (col + 2) player)

/-- Embeds `MCTSOpponent.makeMove`: clone the board (value-level identity here),
drop `player`'s token at the lowest empty row of `column`; when the column is
full (`row === -1`) the board is returned unchanged. -/
def makeMove (b : Board) (column player : Nat) : Board :=
  match lowestEmptyRow b column with
  | some row => setCell b row column player
  | none => b

/-- Embeds `MCTSOpponent.findWinningMove`: the first valid column (ascending order)
whose hypothetical drop makes `player` win, `none` for the JS `-1`. -/
def findWinningMove (b : Board) (player : Nat) : Option Nat :=
  (getValidMoves b).find? fun m => checkWin (makeMove b m player) player

/-- Embeds `MCTSOpponent.isBoardEmpty`: every one of the 15 cells is `EMPTY`. -/
def isBoardEmpty (b : Board) : Bool :=
  [0, 1, 2].all fun r => [0, 1, 2, 3, 4].all fun c => decide (getCell b r c = some EMPTY)

/-- Embeds `MCTSOpponent.isGameOver` (the body of `MCTSNode.isTerminal` is identical):
someone has won or the board is full. -/
def isGameOver (b : Board) : Bool :=
  checkWin b PLAYER_ONE || checkWin b PLAYER_TWO || isBoardFull b

/-- Embeds `MCTSOpponent.getWinner`: `PLAYER_ONE` wins are checked first, then
`PLAYER_TWO`; otherwise `0` (draw or unfinished). -/
def getWinner (b : Board) : Nat :=
  if checkWin b PLAYER_ONE then PLAYER_ONE
  else if checkWin b PLAYER_TWO then PLAYER_TWO
  else 0

/-- Embeds `MCTSOpponent.centerPreference`: `-1` on an empty move list, else the
first column of the preference order `[2, 1, 3, 0, 4]` contained in `moves`,
falling back to `moves[0]`. -/
def centerPreference (moves : List Nat) : Int :=
  match moves with
  | [] => -1
  | m0 :: _ =>
    match [2, 1, 3, 0, 4].find? (fun c => moves.contains c) with
    | some c => (c : Int)
    | none => (m0 : Int)

/-- Oracle stream feeding every `Math.random()` decision and the float-valued
UCB1 child selection; quantifying theorems over all oracles covers every
behaviour the JS can exhibit. -/
abbrev Oracle := List Nat

/-- Draw one value from the oracle stream. -/
def draw (o : Oracle) : Nat × Oracle :=
  (o.headD 0, o.tail)

/-- Embeds `MCTSOpponent.getHeuristicMove`: win if possible, else block the
opponent's win, else (random branch, modelled by oracle parity) prefer the
center with high probability over a uniformly random valid move. -/
def getHeuristicMove (b : Board) (player : Nat) (validMoves : List Nat) (o : Oracle) :
    Nat × Oracle :=
  match validMoves.find? (fun m => checkWin (makeMove b m player) player) with
  | some m => (m, o)
  | none =>
    let opponent := otherPlayer player
    match validMoves.find? (fun m => checkWin (makeMove b m opponent) opponent) with
    | some m => (m, o)
    | none =>
      let (k, o1) := draw o
      if k % 2 = 0 then
        ((centerPreference validMoves).toNat, o1)
      else
        let (j, o2) := draw o1
        (validMoves.getD (j % validMoves.length) 0, o2)

/-- Phase 3 of `MCTSOpponent.getBestMove` (rollout): play heuristic moves
until the game is over or no valid move remains.  The JS `while` loop
terminates because each move fills one of the 15 cells; fuel 15 therefore
suffices for every well-formed board. -/
def rollout (fuel : Nat) (state : Board) (playerJustMoved : Nat) (o : Oracle) :
    Board × Oracle :=
  match fuel with
  | 0 => (state, o)
  | fuel + 1 =>
    if isGameOver state then (state, o)
    else
      match getValidMoves state with
      | [] => (state, o)
      | vm =>
        let nextPlayer := otherPlayer playerJustMoved
        let (move, o1) := getHeuristicMove state nextPlayer vm o
        rollout fuel (makeMove state move nextPlayer) nextPlayer o1

/-- The `MCTSNode` class: board snapshot, visit count, accumulated win score,
untried moves, the player who made the move into this node, and the owned
children (the JS parent back-reference is realised by the recursive update in
`mctsIterate`, which rebuilds each node on the way back up). -/
inductive MCTSNode where
  | mk (state : Board) (visits : Nat) (wins : Rat) (untriedMoves : List Nat)
       (playerJustMoved : Nat) (children : List MCTSNode)

/-- Board snapshot stored in a node. -/
def MCTSNode.state : MCTSNode → Board
  | .mk s _ _ _ _ _ => s

/-- Visit count of a node. -/
def MCTSNode.visits : MCTSNode → Nat
  | .mk _ v _ _ _ _ => v

/-- Accumulated win score of a node. -/
def MCTSNode.wins : MCTSNode → Rat
  | .mk _ _ w _ _ _ => w

/-- Untried moves of a node. -/
def MCTSNode.untriedMoves : MCTSNode → List Nat
  | .mk _ _ _ u _ _ => u

/-- The player who made the move leading into this node. -/
def MCTSNode.playerJustMoved : MCTSNode → Nat
  | .mk _ _ _ _ p _ => p

/-- Children of a node. -/
def MCTSNode.children : MCTSNode → List MCTSNode
  | .mk _ _ _ _ _ c => c

/-- The `MCTSNode` constructor: zero statistics, untried moves initialised to
the valid moves of the state. -/
def MCTSNode.new (state : Board) (playerJustMoved : Nat) : MCTSNode :=
  .mk state 0 0 (getValidMoves state) playerJustMoved []

/-- Phase 4 increment at one node: a draw adds half a point, a win of the
node's `playerJustMoved` a full point, an opponent win nothing. -/
def addScore (w : Rat) (playerJustMoved winner : Nat) : Rat :=
  if winner = 0 then w + (1 / 2 : Rat)
  else if winner = playerJustMoved then w + 1
  else w

/-- One iteration of the `getBestMove` search loop (selection, expansion,
rollout, backpropagation), returning the updated node, the rollout winner and
the remaining oracle.  Selection recursion: while the node is non-terminal and
fully expanded the JS descends into `selectChild`'s UCB1-maximal child; the
float argmax always returns one of `children` when that list is non-empty, so
it is modelled as an oracle-chosen index (every choice is covered); on an
empty child list `selectChild` returns `null` and the JS crashes with a
`TypeError`, modelled as `none`.  Backpropagation rebuilds each node on the
path with `visits + 1` and the `addScore` increment. -/
def mctsIterate : MCTSNode → Oracle → Option (MCTSNode × Nat × Oracle)
  | .mk s v w u p cs, o =>
    if !isGameOver s && u.isEmpty then
      match cs with
      | [] => none
      | c0 :: rest =>
        let k := o.headD 0 % (c0 :: rest).length
        let c := (c0 :: rest).get ⟨k, Nat.mod_lt _ (Nat.succ_pos _)⟩
        match mctsIterate c o.tail with
        | none => none
        | some (c', winner, o2) =>
          some (.mk s (v + 1) (addScore w p winner) u p ((c0 :: rest).set k c'), winner, o2)
    else if !isGameOver s && !u.isEmpty then
      let j := o.headD 0 % u.length
      let m := u.getD j 0
      let nextPlayer := otherPlayer p
      let nextState := makeMove s m nextPlayer
      let (finalState, o2) := rollout 15 nextState nextPlayer o.tail
      let winner := getWinner finalState
      let child : MCTSNode :=
        .mk nextState 1 (addScore 0 nextPlayer winner) (getValidMoves nextState) nextPlayer []
      some (.mk s (v + 1) (addScore w p winner) (u.filter (fun x => x != m)) p (cs ++ [child]),
            winner, o2)
    else
      let winner := getWinner s
      some (.mk s (v + 1) (addScore w p winner) u p cs, winner, o)
  termination_by n _ => sizeOf n
  decreasing_by
    simp_wf
    have hk : o.head?.getD 0 % (rest.length + 1) < (c0 :: rest).length :=
      Nat.mod_lt _ (Nat.succ_pos rest.length)
    have h1 := List.sizeOf_lt_of_mem (List.getElem_mem hk)
    have h2 : sizeOf (c0 :: rest) = 1 + sizeOf c0 + sizeOf rest := by simp
    omega

/-- The search loop of `getBestMove`: run `n` iterations threading the oracle;
`n` models the realised simulation count (the JS loop stops at the earlier of
the configured budget and the 1-second wall-clock cap, so the realised count is
some number not exceeding the budget; theorems quantify over all values). -/
def runSims : Nat → Oracle → MCTSNode → Option (MCTSNode × Oracle)
  | 0, o, root => some (root, o)
  | n + 1, o, root =>
    match mctsIterate root o with
    | none => none
    | some (root', _, o') => runSims n o' root'

/-- Embeds `MCTSOpponent.findMove`: the first column (column-outer, row-inner scan)
where the two boards differ, `-1` when they are identical. -/
def findMove (oldS newS : Board) : Int :=
  match [0, 1, 2, 3, 4].find? (fun c =>
      [0, 1, 2].any fun r => getCell oldS r c != getCell newS r c) with
  | some c => (c : Int)
  | none => -1

/-- The per-child score of the final selection:
`winRate + 0.1 * visits / simCount` (exact rationals for the JS floats). -/
def scoreOf (c : MCTSNode) (simCount : Nat) : Rat :=
  let winRate : Rat := if c.visits > 0 then c.wins / (c.visits : Rat) else 0
  winRate + (1 / 10 : Rat) * (c.visits : Rat) / (simCount : Rat)

/-- The final-selection loop over the root's children: track the best move and
score, starting from `bestMove = -1`, `bestScore = -Infinity` (`none`; every
finite score beats it, so the first child always replaces the initial pair,
matching the JS comparison with `-Infinity`). -/
def bestChildFold (rootState : Board) (simCount : Nat) :
    List MCTSNode → Int → Option Rat → Int
  | [], best, _ => best
  | c :: rest, best, bestScore =>
    if (match bestScore with
        | none => true
        | some bs => decide (bs < scoreOf c simCount)) then
      bestChildFold rootState simCount rest (findMove rootState c.state) (some (scoreOf c simCount))
    else
      bestChildFold rootState simCount rest best bestScore

/-- Move selection after the budget is exhausted, plus the degenerate-case
fallback: when no child produced a best move but untried moves remain, pick
the most central untried move. -/
def finalSelect (root : MCTSNode) (simCount : Nat) : Int :=
  let bestMove := bestChildFold root.state simCount root.children (-1) none
  if bestMove = -1 ∧ root.untriedMoves ≠ [] then centerPreference root.untriedMoves
  else bestMove

/-- The mover as configured on the opponent:
`isPlayerTwo ? PLAYER_TWO : PLAYER_ONE` (`currentPlayer` in the source);
the previous player is `otherPlayer` of it (`prevPlayer`). -/
def moverOf (isPlayerTwo : Bool) : Nat :=
  if isPlayerTwo then PLAYER_TWO else PLAYER_ONE

/-- Embeds `MCTSOpponent.getBestMove`: clone the board (`boardCopy`, value-identical
here), run the tactical pre-checks in source order — immediate winning move
for the mover, blocking move against the previous player, opening-book center
column on an empty board — then the MCTS loop rooted at a fresh node carrying
`prevPlayer`, and the final selection.  The result is `none` only if the
search loop crashes (see `mctsIterate`); `iterations` is the realised
simulation count. -/
def getBestMove (isPlayerTwo : Bool) (b : Board) (iterations : Nat) (o : Oracle) : Option Int :=
  match findWinningMove b (moverOf isPlayerTwo) with
  | some m => some (m : Int)
  | none =>
    match findWinningMove b (otherPlayer (moverOf isPlayerTwo)) with
    | some m => some (m : Int)
    | none =>
      if isBoardEmpty b then some 2
      else
        match runSims iterations o (MCTSNode.new b (otherPlayer (moverOf isPlayerTwo))) with
        | none => none
        | some (root', _) => some (finalSelect root' iterations)

end MCTSOpponent

section HelperLemmas

/-- Reading any cell of a column beyond the five real columns of a
well-formed board yields `undefined`. -/
theorem getCell_none_of_col_ge (b : Board) (hwf : WF b) (r c : Nat) (hc : 5 ≤ c) :
    getCell b r c = none := by
  unfold getCell
  cases hrow : b[r]? with
  | none => rfl
  | some row =>
    have hmem : row ∈ b := List.getElem?_mem hrow
    have hlen : row.length = 5 := hwf.2 row hmem
    exact List.getElem?_eq_none (by omega)

/-- Writing a cell that exists leaves it holding the written value. -/
theorem getCell_setCell_self (b : Board) (r c v x : Nat) (hx : getCell b r c = some x) :
    getCell (setCell b r c v) r c = some v := by
  unfold getCell setCell
  cases hrow : b[r]? with
  | none => exact absurd hx (by simp [getCell, hrow])
  | some row =>
    have hr : r < b.length := (List.getElem?_eq_some.mp hrow).1
    have hcell : row[c]? = some x := by
      unfold getCell at hx; rw [hrow] at hx; exact hx
    have hc : c < row.length := (List.getElem?_eq_some.mp hcell).1
    rw [List.getElem?_set_eq_of_lt _ (by simpa using hr)]
    simp [List.getElem?_set_eq_of_lt _ hc]

/-- Writing one cell leaves every other cell unchanged. -/
theorem getCell_setCell_ne (b : Board) (r c v r' c' : Nat) (h : r' ≠ r ∨ c' ≠ c) :
    getCell (setCell b r c v) r' c' = getCell b r' c' := by
  unfold getCell setCell
  cases hrow : b[r]? with
  | none => rfl
  | some row =>
    rcases eq_or_ne r' r with rfl | hne
    · have hc : c' ≠ c := by
        rcases h with h | h
        · exact absurd rfl h
        · exact h
      have hlt : r' < b.length := (List.getElem?_eq_some.mp hrow).1
      rw [List.getElem?_set_eq_of_lt _ hlt, hrow]
      show (row.set c v)[c']? = row[c']?
      rw [List.getElem?_set_ne (Ne.symm hc)]
    · rw [List.getElem?_set_ne (Ne.symm hne)]

/-- Under the no-floating-token invariant, a column whose entry cell is
occupied is occupied in all three rows. -/
theorem column_occupied_of_entry (b : Board) (hinv : NoFloating b) (c : Nat) (hc : c < 5)
    (h0 : getCell b 0 c ≠ some EMPTY) : ∀ r < 3, getCell b r c ≠ some EMPTY := by
  have h1 : getCell b 1 c ≠ some EMPTY := hinv c hc 0 (by omega) h0
  have h2 : getCell b 2 c ≠ some EMPTY := hinv c hc 1 (by omega) h1
  intro r hr
  interval_cases r
  · exact h0
  · exact h1
  · exact h2

/-- A column whose cells are all occupied has no lowest empty row. -/
theorem lowestEmptyRow_none (b : Board) (c : Nat)
    (h : ∀ r < 3, getCell b r c ≠ some EMPTY) : lowestEmptyRow b c = none := by
  unfold lowestEmptyRow
  rw [if_neg (h 2 (by omega)), if_neg (h 1 (by omega)), if_neg (h 0 (by omega))]

/-- The row returned by `lowestEmptyRow` is an in-range empty cell with every
row strictly below it (larger index, toward the floor) occupied. -/
theorem lowestEmptyRow_spec (b : Board) (c r : Nat) (h : lowestEmptyRow b c = some r) :
    r < 3 ∧ getCell b r c = some EMPTY ∧ ∀ r', r < r' → r' < 3 → getCell b r' c ≠ some EMPTY := by
  unfold lowestEmptyRow at h
  split_ifs at h with h2 h1 h0 <;> cases h
  · exact ⟨by omega, h2, fun r' hlt hlt3 => by omega⟩
  · refine ⟨by omega, h1, fun r' hlt hlt3 => ?_⟩
    have : r' = 2 := by omega
    rw [this]; exact h2
  · refine ⟨by omega, h0, fun r' hlt hlt3 => ?_⟩
    interval_cases r' <;> assumption

end HelperLemmas

section ClaimC4

/-- C4: a call of `GameLogic.makeMove` made when the game is already over, or
aimed at a column whose entry cell (row 0) is occupied, returns `false` and
leaves the whole state (board, current player, game-over flag) unchanged,
invoking the `onWin` callback not at all.  The board is assumed well-formed
and satisfying the no-floating-token invariant, as every reachable game board
is. -/
theorem makeMove_rejects_invalid (s : GameLogic.GameState) (col : Nat)
    (hwf : WF s.board) (hinv : NoFloating s.board)
    (h : s.gameOver = true ∨ getCell s.board 0 col ≠ some EMPTY) :
    GameLogic.makeMove s col = (false, s, []) := by
  unfold GameLogic.makeMove
  cases hgo : s.gameOver with
  | true => simp
  | false =>
    simp only [Bool.false_eq_true, if_false]
    have hentry : getCell s.board 0 col ≠ some EMPTY := by
      rcases h with h | h
      · rw [hgo] at h; cases h
      · exact h
    have hnone : lowestEmptyRow s.board col = none := by
      rcases Nat.lt_or_ge col 5 with hc | hc
      · exact lowestEmptyRow_none _ _ (column_occupied_of_entry _ hinv _ hc hentry)
      · apply lowestEmptyRow_none
        intro r hr
        rw [getCell_none_of_col_ge _ hwf _ _ hc]
        simp
    rw [hnone]

/-- Witness for C4: a full column 0 on an in-progress board is rejected with
no state change and no callback. -/
theorem makeMove_rejects_invalid_witness :
    GameLogic.makeMove
      { board := [[1, 0, 0, 0, 0], [2, 0, 0, 0, 0], [1, 0, 0, 0, 0]],
        currentPlayer := 2, gameOver := false } 0 =
    (false,
      { board := [[1, 0, 0, 0, 0], [2, 0, 0, 0, 0], [1, 0, 0, 0, 0]],
        currentPlayer := 2, gameOver := false }, []) :=
  makeMove_rejects_invalid _ 0 (by decide) (by decide) (Or.inr (by decide))

end ClaimC4

section ClaimC7

/-- C7 counterexample: the claim says `GameLogic.makeMove` invoked with a
column index outside `[0, 5)` must signal a programming error rather than
behave as an ordinary rejected move.  The code has no such error path: with
column 5 on a fresh in-progress state, every read `board[r][5]` yields
`undefined`, the row search finds nothing, and the call returns the ordinary
rejected-move result — `false`, state unchanged, no callback — exactly the
behaviour of a rejected full-column move, contradicting the claim. -/
theorem makeMove_out_of_range_counterexample :
    GameLogic.makeMove
      { board := [[0, 0, 0, 0, 0], [0, 0, 0, 0, 0], [0, 0, 0, 0, 0]],
        currentPlayer := 1, gameOver := false } 5 =
    (false,
      { board := [[0, 0, 0, 0, 0], [0, 0, 0, 0, 0], [0, 0, 0, 0, 0]],
        currentPlayer := 1, gameOver := false }, []) := by decide

/-- C7 amended: `GameLogic.makeMove` invoked with a column index outside
`[0, 5)` silently returns `false` and leaves the entire state unchanged with
no `onWin` invocation — indistinguishable from an ordinary rejected move; no
fail-fast error is signalled. -/
theorem makeMove_out_of_range_silent (s : GameLogic.GameState) (col : Nat)
    (hwf : WF s.board) (hcol : 5 ≤ col) :
    GameLogic.makeMove s col = (false, s, []) := by
  unfold GameLogic.makeMove
  cases hgo : s.gameOver with
  | true => simp
  | false =>
    simp only [Bool.false_eq_true, if_false]
    have hnone : lowestEmptyRow s.board col = none := by
      apply lowestEmptyRow_none
      intro r hr
      rw [getCell_none_of_col_ge _ hwf _ _ hcol]
      simp
    rw [hnone]

/-- Witness for the amended C7 at column 7 on a mid-game state. -/
theorem makeMove_out_of_range_silent_witness :
    GameLogic.makeMove
      { board := [[0, 0, 0, 0, 0], [0, 0, 0, 0, 0], [1, 2, 0, 0, 0]],
        currentPlayer := 1, gameOver := false } 7 =
    (false,
      { board := [[0, 0, 0, 0, 0], [0, 0, 0, 0, 0], [1, 2, 0, 0, 0]],
        currentPlayer := 1, gameOver := false }, []) :=
  makeMove_out_of_range_silent _ 7 (by decide) (by omega)

end ClaimC7

section ClaimC10

/-- C10: on boards satisfying the no-floating-token invariant, the MCTS
engine's top-row-only fullness check agrees with the state machine's full
15-cell scan. -/
theorem mcts_isBoardFull_eq_gameLogic (b : Board) (hinv : NoFloating b) :
    MCTSOpponent.isBoardFull b = GameLogic.isBoardFull b := by
  rw [Bool.eq_iff_iff]
  simp only [MCTSOpponent.isBoardFull, GameLogic.isBoardFull, List.all_cons, List.all_nil,
    Bool.and_true, Bool.and_eq_true, Bool.not_eq_true', decide_eq_false_iff_not]
  constructor
  · rintro ⟨h0, h1, h2, h3, h4⟩
    refine ⟨?_, ?_, ?_, ?_, ?_⟩ <;>
      refine ⟨?_, ?_, ?_⟩ <;>
      first
        | exact column_occupied_of_entry b hinv 0 (by omega) h0 _ (by omega)
        | exact column_occupied_of_entry b hinv 1 (by omega) h1 _ (by omega)
        | exact column_occupied_of_entry b hinv 2 (by omega) h2 _ (by omega)
        | exact column_occupied_of_entry b hinv 3 (by omega) h3 _ (by omega)
        | exact column_occupied_of_entry b hinv 4 (by omega) h4 _ (by omega)
  · rintro ⟨⟨h0, _, _⟩, ⟨h1, _, _⟩, ⟨h2, _, _⟩, ⟨h3, _, _⟩, ⟨h4, _, _⟩⟩
    exact ⟨h0, h1, h2, h3, h4⟩

/-- Witness for C10 on a concrete invariant-satisfying board (full bottom row,
partially filled middle row): both checks report not-full. -/
theorem mcts_isBoardFull_eq_gameLogic_witness :
    MCTSOpponent.isBoardFull [[0, 0, 0, 0, 0], [1, 0, 0, 0, 0], [1, 2, 1, 2, 1]] =
    GameLogic.isBoardFull [[0, 0, 0, 0, 0], [1, 0, 0, 0, 0], [1, 2, 1, 2, 1]] :=
  mcts_isBoardFull_eq_gameLogic _ (by decide)

end ClaimC10

section ClaimC1C2

/-- When some valid move satisfies the winning predicate, `findWinningMove`
returns a valid move satisfying it (the first such column). -/
theorem findWinningMove_some_of_exists (b : Board) (player : Nat)
    (h : ∃ m ∈ MCTSOpponent.getValidMoves b,
        MCTSOpponent.checkWin (MCTSOpponent.makeMove b m player) player = true) :
    ∃ m : Nat, MCTSOpponent.findWinningMove b player = some m ∧
      m ∈ MCTSOpponent.getValidMoves b ∧
      MCTSOpponent.checkWin (MCTSOpponent.makeMove b m player) player = true := by
  obtain ⟨m0, hm0, hp0⟩ := h
  cases hfw : MCTSOpponent.findWinningMove b player with
  | none =>
    exfalso
    unfold MCTSOpponent.findWinningMove at hfw
    rw [List.find?_eq_none] at hfw
    exact absurd hp0 (by simpa using hfw m0 hm0)
  | some m =>
    unfold MCTSOpponent.findWinningMove at hfw
    have hp := List.find?_some hfw
    exact ⟨m, rfl, List.mem_of_find?_eq_some hfw, hp⟩

/-- When no valid move satisfies the winning predicate, `findWinningMove`
returns `none` (the JS `-1`). -/
theorem findWinningMove_none_of_forall (b : Board) (player : Nat)
    (h : ∀ m ∈ MCTSOpponent.getValidMoves b,
        MCTSOpponent.checkWin (MCTSOpponent.makeMove b m player) player = false) :
    MCTSOpponent.findWinningMove b player = none := by
  unfold MCTSOpponent.findWinningMove
  rw [List.find?_eq_none]
  intro m hm
  simp [h m hm]

/-- C1: on any board where the configured mover has a one-move win (a valid
column whose drop completes a line of three for the mover, as judged by the
engine's own `checkWin` after its own `makeMove`), `getBestMove` returns such
a winning column — for every realised simulation count (including zero) and
every oracle, because the tactical pre-check fires before the search loop. -/
theorem getBestMove_takes_immediate_win (p2 : Bool) (b : Board) (iters : Nat)
    (o : MCTSOpponent.Oracle)
    (hwin : ∃ m ∈ MCTSOpponent.getValidMoves b,
        MCTSOpponent.checkWin (MCTSOpponent.makeMove b m (MCTSOpponent.moverOf p2))
          (MCTSOpponent.moverOf p2) = true) :
    ∃ m : Nat, MCTSOpponent.getBestMove p2 b iters o = some (m : Int) ∧
      m ∈ MCTSOpponent.getValidMoves b ∧
      MCTSOpponent.checkWin (MCTSOpponent.makeMove b m (MCTSOpponent.moverOf p2))
        (MCTSOpponent.moverOf p2) = true := by
  obtain ⟨m, hfw, hmem, hp⟩ := findWinningMove_some_of_exists b _ hwin
  refine ⟨m, ?_, hmem, hp⟩
  unfold MCTSOpponent.getBestMove
  rw [hfw]

/-- Witness for C1: the mover (player two) completes the bottom row at
column 2; `getBestMove` returns it with a zero simulation budget. -/
theorem getBestMove_takes_immediate_win_witness :
    ∃ m : Nat, MCTSOpponent.getBestMove true [[0, 0, 0, 0, 0], [0, 0, 0, 0, 0], [2, 2, 0, 1, 1]] 0 []
        = some (m : Int) ∧
      m ∈ MCTSOpponent.getValidMoves [[0, 0, 0, 0, 0], [0, 0, 0, 0, 0], [2, 2, 0, 1, 1]] ∧
      MCTSOpponent.checkWin
        (MCTSOpponent.makeMove [[0, 0, 0, 0, 0], [0, 0, 0, 0, 0], [2, 2, 0, 1, 1]] m
          (MCTSOpponent.moverOf true)) (MCTSOpponent.moverOf true) = true :=
  getBestMove_takes_immediate_win true _ 0 [] ⟨2, by decide, by decide⟩

/-- C2: on any board where the configured mover has no one-move win but the
opponent (the previous player) has one, `getBestMove` returns a blocking
column — a valid column where the opponent's own placement would win — for
every realised simulation count and oracle. -/
theorem getBestMove_blocks_opponent_win (p2 : Bool) (b : Board) (iters : Nat)
    (o : MCTSOpponent.Oracle)
    (hno : ∀ m ∈ MCTSOpponent.getValidMoves b,
        MCTSOpponent.checkWin (MCTSOpponent.makeMove b m (MCTSOpponent.moverOf p2))
          (MCTSOpponent.moverOf p2) = false)
    (hopp : ∃ m ∈ MCTSOpponent.getValidMoves b,
        MCTSOpponent.checkWin
          (MCTSOpponent.makeMove b m (otherPlayer (MCTSOpponent.moverOf p2)))
          (otherPlayer (MCTSOpponent.moverOf p2)) = true) :
    ∃ m : Nat, MCTSOpponent.getBestMove p2 b iters o = some (m : Int) ∧
      m ∈ MCTSOpponent.getValidMoves b ∧
      MCTSOpponent.checkWin
        (MCTSOpponent.makeMove b m (otherPlayer (MCTSOpponent.moverOf p2)))
        (otherPlayer (MCTSOpponent.moverOf p2)) = true := by
  obtain ⟨m, hfw, hmem, hp⟩ := findWinningMove_some_of_exists b _ hopp
  refine ⟨m, ?_, hmem, hp⟩
  unfold MCTSOpponent.getBestMove
  rw [findWinningMove_none_of_forall b _ hno, hfw]

/-- Witness for C2: player one threatens to complete the bottom row at
column 2; the mover (player two) has no win, and `getBestMove` blocks at
column 2 with a zero simulation budget. -/
theorem getBestMove_blocks_opponent_win_witness :
    ∃ m : Nat, MCTSOpponent.getBestMove true [[0, 0, 0, 0, 0], [0, 0, 0, 0, 0], [1, 1, 0, 2, 0]] 0 []
        = some (m : Int) ∧
      m ∈ MCTSOpponent.getValidMoves [[0, 0, 0, 0, 0], [0, 0, 0, 0, 0], [1, 1, 0, 2, 0]] ∧
      MCTSOpponent.checkWin
        (MCTSOpponent.makeMove [[0, 0, 0, 0, 0], [0, 0, 0, 0, 0], [1, 1, 0, 2, 0]] m
          (otherPlayer (MCTSOpponent.moverOf true)))
        (otherPlayer (MCTSOpponent.moverOf true)) = true :=
  getBestMove_blocks_opponent_win true _ 0 [] (by decide) ⟨2, by decide, by decide⟩

end ClaimC1C2

section ClaimC6

/-- C6: an accepted `GameLogic.makeMove` (game not over, a lowest empty row
`r` found in the chosen column) on a board satisfying the no-floating-token
invariant succeeds, changes exactly one cell — the lowest empty row of the
column, which was `EMPTY`, now holding the current mover's token — leaves
every other cell unchanged, and the resulting board satisfies the invariant
again. -/
theorem makeMove_preserves_no_floating (s : GameLogic.GameState) (col r : Nat)
    (hinv : NoFloating s.board) (hcp : s.currentPlayer ≠ EMPTY)
    (hgo : s.gameOver = false) (hr : lowestEmptyRow s.board col = some r) :
    (GameLogic.makeMove s col).1 = true ∧
    r < 3 ∧ getCell s.board r col = some EMPTY ∧
    (∀ r', r < r' → r' < 3 → getCell s.board r' col ≠ some EMPTY) ∧
    getCell (GameLogic.makeMove s col).2.1.board r col = some s.currentPlayer ∧
    (∀ r' c', r' ≠ r ∨ c' ≠ col →
      getCell (GameLogic.makeMove s col).2.1.board r' c' = getCell s.board r' c') ∧
    NoFloating (GameLogic.makeMove s col).2.1.board := by
  obtain ⟨hr3, hempty, hbelow⟩ := lowestEmptyRow_spec s.board col r hr
  have key : (GameLogic.makeMove s col).1 = true ∧
      (GameLogic.makeMove s col).2.1.board = setCell s.board r col s.currentPlayer := by
    unfold GameLogic.makeMove
    simp only [hgo, Bool.false_eq_true, if_false, hr]
    rcases WinChecker.checkWinner (setCell s.board r col s.currentPlayer) r col with _ | call
    · by_cases hf : GameLogic.isBoardFull (setCell s.board r col s.currentPlayer) <;>
        simp [hf]
    · simp
  rw [key.2]
  have hself : getCell (setCell s.board r col s.currentPlayer) r col = some s.currentPlayer :=
    getCell_setCell_self _ _ _ _ _ hempty
  have hother : ∀ r' c', r' ≠ r ∨ c' ≠ col →
      getCell (setCell s.board r col s.currentPlayer) r' c' = getCell s.board r' c' :=
    fun r' c' h => getCell_setCell_ne _ _ _ _ _ _ h
  refine ⟨key.1, hr3, hempty, hbelow, hself, hother, ?_⟩
  intro c' hc' r2 hr2 hocc
  rcases eq_or_ne c' col with rfl | hcol
  · rcases eq_or_ne (r2 + 1) r with h1 | h1
    · rw [h1, hself]
      simp only [ne_eq, Option.some.injEq]
      exact hcp
    · rcases eq_or_ne r2 r with h2 | h2
      · rw [hother (r2 + 1) c' (Or.inl h1)]
        exact hbelow (r2 + 1) (by omega) (by omega)
      · rw [hother r2 c' (Or.inl h2)] at hocc
        rw [hother (r2 + 1) c' (Or.inl h1)]
        exact hinv c' hc' r2 hr2 hocc
  · rw [hother r2 c' (Or.inr hcol)] at hocc
    rw [hother (r2 + 1) c' (Or.inr hcol)]
    exact hinv c' hc' r2 hr2 hocc

/-- Witness for C6: player two drops into column 0 on a board with one token
there; the token lands on row 1 and the invariant is preserved. -/
theorem makeMove_preserves_no_floating_witness :
    (GameLogic.makeMove
      { board := [[0, 0, 0, 0, 0], [0, 0, 0, 0, 0], [1, 0, 0, 0, 0]],
        currentPlayer := 2, gameOver := false } 0).1 = true ∧
    1 < 3 ∧
    getCell [[0, 0, 0, 0, 0], [0, 0, 0, 0, 0], [1, 0, 0, 0, 0]] 1 0 = some EMPTY ∧
    (∀ r', 1 < r' → r' < 3 →
      getCell [[0, 0, 0, 0, 0], [0, 0, 0, 0, 0], [1, 0, 0, 0, 0]] r' 0 ≠ some EMPTY) ∧
    getCell (GameLogic.makeMove
      { board := [[0, 0, 0, 0, 0], [0, 0, 0, 0, 0], [1, 0, 0, 0, 0]],
        currentPlayer := 2, gameOver := false } 0).2.1.board 1 0 = some 2 ∧
    (∀ r' c', r' ≠ 1 ∨ c' ≠ 0 →
      getCell (GameLogic.makeMove
        { board := [[0, 0, 0, 0, 0], [0, 0, 0, 0, 0], [1, 0, 0, 0, 0]],
          currentPlayer := 2, gameOver := false } 0).2.1.board r' c' =
      getCell [[0, 0, 0, 0, 0], [0, 0, 0, 0, 0], [1, 0, 0, 0, 0]] r' c') ∧
    NoFloating (GameLogic.makeMove
      { board := [[0, 0, 0, 0, 0], [0, 0, 0, 0, 0], [1, 0, 0, 0, 0]],
        currentPlayer := 2, gameOver := false } 0).2.1.board :=
  makeMove_preserves_no_floating _ 0 1 (by decide) (by decide) (by decide) (by decide)

end ClaimC6

section ClaimC8

/-- The player-swap relabeling of C8: `PLAYER_ONE` and `PLAYER_TWO` exchange,
every other cell value (in particular `EMPTY`) is fixed. -/
def swapPlayer (x : Nat) : Nat :=
  if x = PLAYER_ONE then PLAYER_TWO else if x = PLAYER_TWO then PLAYER_ONE else x

/-- Relabel every cell of a board by `swapPlayer`. -/
def swapBoard (b : Board) : Board :=
  b.map fun row => row.map swapPlayer

theorem swapPlayer_involutive (x : Nat) : swapPlayer (swapPlayer x) = x := by
  unfold swapPlayer
  split_ifs <;> omega

theorem swapPlayer_injective : Function.Injective swapPlayer :=
  Function.Involutive.injective swapPlayer_involutive

theorem getCell_swapBoard (b : Board) (r c : Nat) :
    getCell (swapBoard b) r c = (getCell b r c).map swapPlayer := by
  unfold getCell swapBoard
  rw [List.getElem?_map]
  cases b[r]? with
  | none => rfl
  | some row => simp [List.getElem?_map]

/-- The cell test is invariant under simultaneously relabeling the board and
the sought player. -/
theorem cellIs_swap (b : Board) (r c : Nat) (player : Option Nat) :
    WinChecker.cellIs (swapBoard b) r c (player.map swapPlayer) =
    WinChecker.cellIs b r c player := by
  unfold WinChecker.cellIs
  rw [getCell_swapBoard]
  rcases h : getCell b r c with _ | x <;> rcases hp : player with _ | y <;>
    simp [swapPlayer_injective.eq_iff]

theorem hScan_swap (b : Board) (row : Nat) (player : Option Nat)
    (cols : List Nat) (count sc : Nat) :
    WinChecker.hScan (swapBoard b) row (player.map swapPlayer) cols count sc =
    WinChecker.hScan b row player cols count sc := by
  induction cols generalizing count sc with
  | nil => rfl
  | cons c rest ih =>
    unfold WinChecker.hScan
    rw [cellIs_swap]
    cases WinChecker.cellIs b row c player <;> simp [ih]

theorem vScan_swap (b : Board) (col : Nat) (player : Option Nat)
    (rows : List Nat) (count sr : Nat) :
    WinChecker.vScan (swapBoard b) col (player.map swapPlayer) rows count sr =
    WinChecker.vScan b col player rows count sr := by
  induction rows generalizing count sr with
  | nil => rfl
  | cons r rest ih =>
    unfold WinChecker.vScan
    rw [cellIs_swap]
    cases WinChecker.cellIs b r col player <;> simp [ih]

/-- Map a recorded callback invocation through the player swap. -/
def swapCall (call : WinChecker.WinCall) : WinChecker.WinCall :=
  (call.1, call.2.map swapPlayer)

theorem checkHorizontalWin_swap (b : Board) (row : Nat) (player : Option Nat) :
    WinChecker.checkHorizontalWin (swapBoard b) row (player.map swapPlayer) =
    (WinChecker.checkHorizontalWin b row player).map swapCall := by
  unfold WinChecker.checkHorizontalWin
  rw [hScan_swap]
  cases WinChecker.hScan b row player [0, 1, 2, 3, 4] 0 0 <;> simp [swapCall]

theorem checkVerticalWin_swap (b : Board) (col : Nat) (player : Option Nat) :
    WinChecker.checkVerticalWin (swapBoard b) col (player.map swapPlayer) =
    (WinChecker.checkVerticalWin b col player).map swapCall := by
  unfold WinChecker.checkVerticalWin
  rw [vScan_swap]
  cases WinChecker.vScan b col player [0, 1, 2] 0 0 <;> simp [swapCall]

theorem checkDiagonalDownWin_swap (b : Board) (player : Option Nat) :
    WinChecker.checkDiagonalDownWin (swapBoard b) (player.map swapPlayer) =
    (WinChecker.checkDiagonalDownWin b player).map swapCall := by
  unfold WinChecker.checkDiagonalDownWin
  have hpred : (fun c => WinChecker.cellIs (swapBoard b) 0 c (player.map swapPlayer) &&
      WinChecker.cellIs (swapBoard b) 1 (c + 1) (player.map swapPlayer) &&
      WinChecker.cellIs (swapBoard b) 2 (c + 2) (player.map swapPlayer)) =
      (fun c => WinChecker.cellIs b 0 c player && WinChecker.cellIs b 1 (c + 1) player &&
        WinChecker.cellIs b 2 (c + 2) player) := by
    funext c
    rw [cellIs_swap, cellIs_swap, cellIs_swap]
  rw [hpred]
  cases [0, 1, 2].find? (fun c => WinChecker.cellIs b 0 c player &&
      WinChecker.cellIs b 1 (c + 1) player && WinChecker.cellIs b 2 (c + 2) player) <;>
    simp [swapCall]

theorem checkDiagonalUpWin_swap (b : Board) (player : Option Nat) :
    WinChecker.checkDiagonalUpWin (swapBoard b) (player.map swapPlayer) =
    (WinChecker.checkDiagonalUpWin b player).map swapCall := by
  unfold WinChecker.checkDiagonalUpWin
  have hpred : (fun c => WinChecker.cellIs (swapBoard b) 2 c (player.map swapPlayer) &&
      WinChecker.cellIs (swapBoard b) 1 (c + 1) (player.map swapPlayer) &&
      WinChecker.cellIs (swapBoard b) 0 (c + 2) (player.map swapPlayer)) =
      (fun c => WinChecker.cellIs b 2 c player && WinChecker.cellIs b 1 (c + 1) player &&
        WinChecker.cellIs b 0 (c + 2) player) := by
    funext c
    rw [cellIs_swap, cellIs_swap, cellIs_swap]
  rw [hpred]
  cases [0, 1, 2].find? (fun c => WinChecker.cellIs b 2 c player &&
      WinChecker.cellIs b 1 (c + 1) player && WinChecker.cellIs b 0 (c + 2) player) <;>
    simp [swapCall]

/-- The whole detector relabels cleanly: the swapped board reports exactly the
swapped callback of the original (same winning positions, swapped player). -/
theorem checkWinner_swap (b : Board) (r c : Nat) :
    WinChecker.checkWinner (swapBoard b) r c =
    (WinChecker.checkWinner b r c).map swapCall := by
  unfold WinChecker.checkWinner
  rw [getCell_swapBoard, checkHorizontalWin_swap, checkVerticalWin_swap,
    checkDiagonalDownWin_swap, checkDiagonalUpWin_swap]
  rcases WinChecker.checkHorizontalWin b r (getCell b r c) with _ | h <;>
    rcases WinChecker.checkVerticalWin b c (getCell b r c) with _ | v <;>
    rcases WinChecker.checkDiagonalDownWin b (getCell b r c) with _ | d <;> simp

/-- C8: win detection is symmetric under player swap — whenever
`WinChecker.checkWinner` reports a win on board `b` anchored at `(r, c)`, it
also reports a win (indeed, the same winning positions for the relabelled
player) on the board with all `PLAYER_ONE`/`PLAYER_TWO` cells exchanged,
re-checked at the same `(r, c)`. -/
theorem checkWinner_player_swap_symmetric (b : Board) (r c : Nat)
    (hwin : (WinChecker.checkWinner b r c).isSome = true) :
    (WinChecker.checkWinner (swapBoard b) r c).isSome = true := by
  rw [checkWinner_swap]
  simpa using hwin

/-- Witness for C8: a horizontal player-one win on the bottom row is still a
win (for player two) after relabeling. -/
theorem checkWinner_player_swap_symmetric_witness :
    (WinChecker.checkWinner
      (swapBoard [[0, 0, 0, 0, 0], [0, 0, 0, 0, 0], [1, 1, 1, 2, 2]]) 2 0).isSome = true :=
  checkWinner_player_swap_symmetric [[0, 0, 0, 0, 0], [0, 0, 0, 0, 0], [1, 1, 1, 2, 2]] 2 0
    (by decide)

end ClaimC8

section ClaimC5Prep

/-- All twenty length-3 lines (windows) of the 3×5 board: nine horizontal,
five vertical, three down-right diagonals, three up-right diagonals.  Used
only to state properties; the embedded detectors are proved sound and
complete against it. -/
def winWindows : List (List (Nat × Nat)) :=
  [[(0, 0), (0, 1), (0, 2)], [(0, 1), (0, 2), (0, 3)], [(0, 2), (0, 3), (0, 4)],
   [(1, 0), (1, 1), (1, 2)], [(1, 1), (1, 2), (1, 3)], [(1, 2), (1, 3), (1, 4)],
   [(2, 0), (2, 1), (2, 2)], [(2, 1), (2, 2), (2, 3)], [(2, 2), (2, 3), (2, 4)],
   [(0, 0), (1, 0), (2, 0)], [(0, 1), (1, 1), (2, 1)], [(0, 2), (1, 2), (2, 2)],
   [(0, 3), (1, 3), (2, 3)], [(0, 4), (1, 4), (2, 4)],
   [(0, 0), (1, 1), (2, 2)], [(0, 1), (1, 2), (2, 3)], [(0, 2), (1, 3), (2, 4)],
   [(2, 0), (1, 1), (0, 2)], [(2, 1), (1, 2), (0, 3)], [(2, 2), (1, 3), (0, 4)]]

/-- Every cell of a window holds `p`'s token on board `b`. -/
def windowAll (b : Board) (w : List (Nat × Nat)) (p : Nat) : Prop :=
  ∀ q ∈ w, getCell b q.1 q.2 = some p

instance (b : Board) (w : List (Nat × Nat)) (p : Nat) : Decidable (windowAll b w p) := by
  unfold windowAll; infer_instance

theorem hScan_sound (b : Board) (row : Nat) (player : Option Nat) (sc : Nat)
    (h : WinChecker.hScan b row player [0, 1, 2, 3, 4] 0 0 = some sc) :
    sc ≤ 2 ∧ WinChecker.cellIs b row sc player = true ∧
    WinChecker.cellIs b row (sc + 1) player = true ∧
    WinChecker.cellIs b row (sc + 2) player = true := by
  by_cases h0 : WinChecker.cellIs b row 0 player <;>
    by_cases h1 : WinChecker.cellIs b row 1 player <;>
    by_cases h2 : WinChecker.cellIs b row 2 player <;>
    by_cases h3 : WinChecker.cellIs b row 3 player <;>
    by_cases h4 : WinChecker.cellIs b row 4 player <;>
    simp [WinChecker.hScan, h0, h1, h2, h3, h4] at h <;>
    subst h <;>
    refine ⟨by omega, by simp_all, by simp_all, by simp_all⟩

theorem hScan_complete (b : Board) (row : Nat) (player : Option Nat) (j : Nat) (hj : j ≤ 2)
    (ha : WinChecker.cellIs b row j player = true)
    (hb : WinChecker.cellIs b row (j + 1) player = true)
    (hc : WinChecker.cellIs b row (j + 2) player = true) :
    (WinChecker.hScan b row player [0, 1, 2, 3, 4] 0 0).isSome = true := by
  interval_cases j <;>
    by_cases h0 : WinChecker.cellIs b row 0 player <;>
    by_cases h1 : WinChecker.cellIs b row 1 player <;>
    by_cases h2 : WinChecker.cellIs b row 2 player <;>
    by_cases h3 : WinChecker.cellIs b row 3 player <;>
    by_cases h4 : WinChecker.cellIs b row 4 player <;>
    simp_all [WinChecker.hScan]

theorem vScan_sound (b : Board) (col : Nat) (player : Option Nat) (sr : Nat)
    (h : WinChecker.vScan b col player [0, 1, 2] 0 0 = some sr) :
    sr = 0 ∧ WinChecker.cellIs b 0 col player = true ∧
    WinChecker.cellIs b 1 col player = true ∧
    WinChecker.cellIs b 2 col player = true := by
  by_cases h0 : WinChecker.cellIs b 0 col player <;>
    by_cases h1 : WinChecker.cellIs b 1 col player <;>
    by_cases h2 : WinChecker.cellIs b 2 col player <;>
    simp [WinChecker.vScan, h0, h1, h2] at h <;>
    subst h <;>
    refine ⟨rfl, by simp_all, by simp_all, by simp_all⟩

theorem vScan_complete (b : Board) (col : Nat) (player : Option Nat)
    (h0 : WinChecker.cellIs b 0 col player = true)
    (h1 : WinChecker.cellIs b 1 col player = true)
    (h2 : WinChecker.cellIs b 2 col player = true) :
    (WinChecker.vScan b col player [0, 1, 2] 0 0).isSome = true := by
  simp [WinChecker.vScan, h0, h1, h2]

/-- Decompose a reported win into the four line families. -/
theorem checkWinner_cases (b : Board) (row col : Nat) (call : WinChecker.WinCall)
    (h : WinChecker.checkWinner b row col = some call) :
    WinChecker.checkHorizontalWin b row (getCell b row col) = some call ∨
    WinChecker.checkVerticalWin b col (getCell b row col) = some call ∨
    WinChecker.checkDiagonalDownWin b (getCell b row col) = some call ∨
    WinChecker.checkDiagonalUpWin b (getCell b row col) = some call := by
  unfold WinChecker.checkWinner at h
  rcases hh : WinChecker.checkHorizontalWin b row (getCell b row col) with _ | x <;>
    rw [hh] at h
  · rcases hv : WinChecker.checkVerticalWin b col (getCell b row col) with _ | x <;>
      rw [hv] at h
    · rcases hd : WinChecker.checkDiagonalDownWin b (getCell b row col) with _ | x <;>
        rw [hd] at h
      · exact Or.inr (Or.inr (Or.inr h))
      · simp only [Option.some.injEq] at h
        exact Or.inr (Or.inr (Or.inl (by rw [h])))
    · simp only [Option.some.injEq] at h
      exact Or.inr (Or.inl (by rw [h]))
  · simp only [Option.some.injEq] at h
    exact Or.inl (by rw [h])

/-- A reported win from any single family makes the whole detector report. -/
theorem checkWinner_isSome_of (b : Board) (row col : Nat)
    (h : (WinChecker.checkHorizontalWin b row (getCell b row col)).isSome = true ∨
      (WinChecker.checkVerticalWin b col (getCell b row col)).isSome = true ∨
      (WinChecker.checkDiagonalDownWin b (getCell b row col)).isSome = true ∨
      (WinChecker.checkDiagonalUpWin b (getCell b row col)).isSome = true) :
    (WinChecker.checkWinner b row col).isSome = true := by
  unfold WinChecker.checkWinner
  rcases hh : WinChecker.checkHorizontalWin b row (getCell b row col) with _ | x <;>
    rcases hv : WinChecker.checkVerticalWin b col (getCell b row col) with _ | x <;>
    rcases hd : WinChecker.checkDiagonalDownWin b (getCell b row col) with _ | x <;>
    simp_all

/-- An unchanged window (one avoiding the single written cell) that is fully
owned on the new board was already fully owned on the old board. -/
theorem windowAll_transfer (b nb : Board) (w : List (Nat × Nat)) (p r col : Nat)
    (hnb : ∀ r' c', r' ≠ r ∨ c' ≠ col → getCell nb r' c' = getCell b r' c')
    (hnotmem : (r, col) ∉ w) (hall : windowAll nb w p) : windowAll b w p := by
  intro q hq
  have hne : q.1 ≠ r ∨ q.2 ≠ col := by
    by_contra hcon
    push_neg at hcon
    apply hnotmem
    have hq' : q = (r, col) := Prod.ext hcon.1 hcon.2
    rwa [hq'] at hq
  rw [← hnb q.1 q.2 hne]
  exact hall q hq

/-- A cell read that succeeds pins the column under five real columns. -/
theorem col_lt_of_getCell_some (b : Board) (hwf : WF b) (r c x : Nat)
    (h : getCell b r c = some x) : c < 5 := by
  unfold getCell at h
  cases hrow : b[r]? with
  | none => rw [hrow] at h; cases h
  | some row =>
    rw [hrow] at h
    have hc : c < row.length := (List.getElem?_eq_some.mp h).1
    have hlen : row.length = 5 := hwf.2 row (List.getElem?_mem hrow)
    omega

end ClaimC5Prep

section ClaimC5

theorem cellIs_eq (b : Board) (r c p : Nat) :
    WinChecker.cellIs b r c (some p) = true ↔ getCell b r c = some p := by
  simp [WinChecker.cellIs]

theorem checkHorizontalWin_isSome (b : Board) (row : Nat) (player : Option Nat)
    (h : (WinChecker.hScan b row player [0, 1, 2, 3, 4] 0 0).isSome = true) :
    (WinChecker.checkHorizontalWin b row player).isSome = true := by
  unfold WinChecker.checkHorizontalWin
  cases hs : WinChecker.hScan b row player [0, 1, 2, 3, 4] 0 0 <;> simp_all

theorem checkVerticalWin_isSome (b : Board) (col : Nat) (player : Option Nat)
    (h : (WinChecker.vScan b col player [0, 1, 2] 0 0).isSome = true) :
    (WinChecker.checkVerticalWin b col player).isSome = true := by
  unfold WinChecker.checkVerticalWin
  cases hs : WinChecker.vScan b col player [0, 1, 2] 0 0 <;> simp_all

theorem find3_isSome (p : Nat → Bool) (c0 : Nat) (hc0 : c0 ∈ ([0, 1, 2] : List Nat))
    (hp : p c0 = true) : (([0, 1, 2] : List Nat).find? p).isSome = true := by
  fin_cases hc0 <;> by_cases h0 : p 0 <;> by_cases h1 : p 1 <;> by_cases h2 : p 2 <;>
    simp_all [List.find?]

/-- A full horizontal window in the anchored row makes the detector report. -/
theorem checkWinner_isSome_horiz (b : Board) (r c c0 p : Nat) (hc0 : c0 ≤ 2)
    (hp : getCell b r c = some p)
    (h1 : getCell b r c0 = some p) (h2 : getCell b r (c0 + 1) = some p)
    (h3 : getCell b r (c0 + 2) = some p) :
    (WinChecker.checkWinner b r c).isSome = true := by
  apply checkWinner_isSome_of
  refine Or.inl ?_
  rw [hp]
  exact checkHorizontalWin_isSome b r (some p)
    (hScan_complete b r (some p) c0 hc0 ((cellIs_eq _ _ _ _).mpr h1)
      ((cellIs_eq _ _ _ _).mpr h2) ((cellIs_eq _ _ _ _).mpr h3))

/-- A full vertical window in the anchored column makes the detector report. -/
theorem checkWinner_isSome_vert (b : Board) (r c p : Nat)
    (hp : getCell b r c = some p)
    (h1 : getCell b 0 c = some p) (h2 : getCell b 1 c = some p)
    (h3 : getCell b 2 c = some p) :
    (WinChecker.checkWinner b r c).isSome = true := by
  apply checkWinner_isSome_of
  refine Or.inr (Or.inl ?_)
  rw [hp]
  exact checkVerticalWin_isSome b c (some p)
    (vScan_complete b c (some p) ((cellIs_eq _ _ _ _).mpr h1)
      ((cellIs_eq _ _ _ _).mpr h2) ((cellIs_eq _ _ _ _).mpr h3))

/-- A full down-right diagonal window makes the detector report. -/
theorem checkWinner_isSome_diagDown (b : Board) (r c c0 p : Nat)
    (hc0 : c0 ∈ ([0, 1, 2] : List Nat)) (hp : getCell b r c = some p)
    (h1 : getCell b 0 c0 = some p) (h2 : getCell b 1 (c0 + 1) = some p)
    (h3 : getCell b 2 (c0 + 2) = some p) :
    (WinChecker.checkWinner b r c).isSome = true := by
  apply checkWinner_isSome_of
  refine Or.inr (Or.inr (Or.inl ?_))
  rw [hp]
  unfold WinChecker.checkDiagonalDownWin
  have hfind := find3_isSome
    (fun c => WinChecker.cellIs b 0 c (some p) &&
      WinChecker.cellIs b 1 (c + 1) (some p) && WinChecker.cellIs b 2 (c + 2) (some p))
    c0 hc0 (by simp [WinChecker.cellIs, h1, h2, h3])
  cases hs : ([0, 1, 2] : List Nat).find? (fun c => WinChecker.cellIs b 0 c (some p) &&
      WinChecker.cellIs b 1 (c + 1) (some p) && WinChecker.cellIs b 2 (c + 2) (some p)) <;>
    simp_all

/-- A full up-right diagonal window makes the detector report. -/
theorem checkWinner_isSome_diagUp (b : Board) (r c c0 p : Nat)
    (hc0 : c0 ∈ ([0, 1, 2] : List Nat)) (hp : getCell b r c = some p)
    (h1 : getCell b 2 c0 = some p) (h2 : getCell b 1 (c0 + 1) = some p)
    (h3 : getCell b 0 (c0 + 2) = some p) :
    (WinChecker.checkWinner b r c).isSome = true := by
  apply checkWinner_isSome_of
  refine Or.inr (Or.inr (Or.inr ?_))
  rw [hp]
  unfold WinChecker.checkDiagonalUpWin
  have hfind := find3_isSome
    (fun c => WinChecker.cellIs b 2 c (some p) &&
      WinChecker.cellIs b 1 (c + 1) (some p) && WinChecker.cellIs b 0 (c + 2) (some p))
    c0 hc0 (by simp [WinChecker.cellIs, h1, h2, h3])
  cases hs : ([0, 1, 2] : List Nat).find? (fun c => WinChecker.cellIs b 2 c (some p) &&
      WinChecker.cellIs b 1 (c + 1) (some p) && WinChecker.cellIs b 0 (c + 2) (some p)) <;>
    simp_all

/-- A window fully owned on the new board either contains the written cell or
was already fully owned before the move. -/
theorem window_hit_or_preexisting (b nb : Board) (p r col : Nat) (w : List (Nat × Nat))
    (hnopre : ∀ w' ∈ winWindows, ¬ windowAll b w' p) (hw : w ∈ winWindows)
    (hother : ∀ r' c', r' ≠ r ∨ c' ≠ col → getCell nb r' c' = getCell b r' c')
    (hall : windowAll nb w p) : (r, col) ∈ w := by
  by_contra hno
  exact hnopre w hw (windowAll_transfer b nb w p r col hother hno hall)

/-- C5: for every accepted `GameLogic.makeMove` (game in progress, lowest
empty row `r` found in column `col`) on a well-formed board: (i) the `onWin`
callback fires at most once; (ii) if the pre-move board holds no completed
line for the mover, then a callback means the placed token completed a line
of three through `(r, col)` on the resulting board; (iii) whenever the placed
token completes a line on the resulting board — in particular on a move that
also fills the last empty cell — the callback fires exactly once and the
state turns terminal through the win branch (the draw check, which never
fires the callback, is consulted only after win detection returns false). -/
theorem makeMove_onWin_once_win_over_draw (s : GameLogic.GameState) (col r : Nat)
    (hwf : WF s.board) (hgo : s.gameOver = false)
    (hr : lowestEmptyRow s.board col = some r) :
    (GameLogic.makeMove s col).2.2.length ≤ 1 ∧
    ((∀ w ∈ winWindows, ¬ windowAll s.board w s.currentPlayer) →
      (GameLogic.makeMove s col).2.2 ≠ [] →
      ∃ w ∈ winWindows, (r, col) ∈ w ∧
        windowAll (GameLogic.makeMove s col).2.1.board w s.currentPlayer) ∧
    (∀ w ∈ winWindows, (r, col) ∈ w →
      windowAll (GameLogic.makeMove s col).2.1.board w s.currentPlayer →
      (GameLogic.makeMove s col).2.2.length = 1 ∧
      (GameLogic.makeMove s col).2.1.gameOver = true) := by
  obtain ⟨hr3, hempty, hbelow⟩ := lowestEmptyRow_spec s.board col r hr
  have hcol5 : col < 5 := col_lt_of_getCell_some s.board hwf r col EMPTY hempty
  have hplaced : getCell (setCell s.board r col s.currentPlayer) r col =
      some s.currentPlayer := getCell_setCell_self _ _ _ _ _ hempty
  have hother : ∀ r' c', r' ≠ r ∨ c' ≠ col →
      getCell (setCell s.board r col s.currentPlayer) r' c' = getCell s.board r' c' :=
    fun r' c' h => getCell_setCell_ne _ _ _ _ _ _ h
  rcases hcw : WinChecker.checkWinner (setCell s.board r col s.currentPlayer) r col
    with _ | call
  · have hres2 : (GameLogic.makeMove s col).2.1.board =
        setCell s.board r col s.currentPlayer ∧ (GameLogic.makeMove s col).2.2 = [] := by
      unfold GameLogic.makeMove
      simp only [hgo, Bool.false_eq_true, if_false, hr]
      rw [hcw]
      by_cases hf : GameLogic.isBoardFull (setCell s.board r col s.currentPlayer) <;>
        simp [hf]
    refine ⟨by rw [hres2.2]; simp, ?_, ?_⟩
    · intro _ hne
      exact absurd hres2.2 hne
    · intro w hw hmem hall
      rw [hres2.1] at hall
      exfalso
      have hsome : (WinChecker.checkWinner
          (setCell s.board r col s.currentPlayer) r col).isSome = true := by
        fin_cases hw
        · rw [List.mem_cons, List.mem_cons, List.mem_singleton] at hmem
          rcases hmem with h | h | h <;> simp only [Prod.mk.injEq] at h <;>
            obtain ⟨hre, hce⟩ := h <;> subst hre <;> subst hce <;>
            exact checkWinner_isSome_horiz _ _ _ 0 _ (by omega) hplaced
              (hall (0, 0) (by decide)) (hall (0, 1) (by decide))
              (hall (0, 2) (by decide))
        · rw [List.mem_cons, List.mem_cons, List.mem_singleton] at hmem
          rcases hmem with h | h | h <;> simp only [Prod.mk.injEq] at h <;>
            obtain ⟨hre, hce⟩ := h <;> subst hre <;> subst hce <;>
            exact checkWinner_isSome_horiz _ _ _ 1 _ (by omega) hplaced
              (hall (0, 1) (by decide)) (hall (0, 2) (by decide))
              (hall (0, 3) (by decide))
        · rw [List.mem_cons, List.mem_cons, List.mem_singleton] at hmem
          rcases hmem with h | h | h <;> simp only [Prod.mk.injEq] at h <;>
            obtain ⟨hre, hce⟩ := h <;> subst hre <;> subst hce <;>
            exact checkWinner_isSome_horiz _ _ _ 2 _ (by omega) hplaced
              (hall (0, 2) (by decide)) (hall (0, 3) (by decide))
              (hall (0, 4) (by decide))
        · rw [List.mem_cons, List.mem_cons, List.mem_singleton] at hmem
          rcases hmem with h | h | h <;> simp only [Prod.mk.injEq] at h <;>
            obtain ⟨hre, hce⟩ := h <;> subst hre <;> subst hce <;>
            exact checkWinner_isSome_horiz _ _ _ 0 _ (by omega) hplaced
              (hall (1, 0) (by decide)) (hall (1, 1) (by decide))
              (hall (1, 2) (by decide))
        · rw [List.mem_cons, List.mem_cons, List.mem_singleton] at hmem
          rcases hmem with h | h | h <;> simp only [Prod.mk.injEq] at h <;>
            obtain ⟨hre, hce⟩ := h <;> subst hre <;> subst hce <;>
            exact checkWinner_isSome_horiz _ _ _ 1 _ (by omega) hplaced
              (hall (1, 1) (by decide)) (hall (1, 2) (by decide))
              (hall (1, 3) (by decide))
        · rw [List.mem_cons, List.mem_cons, List.mem_singleton] at hmem
          rcases hmem with h | h | h <;> simp only [Prod.mk.injEq] at h <;>
            obtain ⟨hre, hce⟩ := h <;> subst hre <;> subst hce <;>
            exact checkWinner_isSome_horiz _ _ _ 2 _ (by omega) hplaced
              (hall (1, 2) (by decide)) (hall (1, 3) (by decide))
              (hall (1, 4) (by decide))
        · rw [List.mem_cons, List.mem_cons, List.mem_singleton] at hmem
          rcases hmem with h | h | h <;> simp only [Prod.mk.injEq] at h <;>
            obtain ⟨hre, hce⟩ := h <;> subst hre <;> subst hce <;>
            exact checkWinner_isSome_horiz _ _ _ 0 _ (by omega) hplaced
              (hall (2, 0) (by decide)) (hall (2, 1) (by decide))
              (hall (2, 2) (by decide))
        · rw [List.mem_cons, List.mem_cons, List.mem_singleton] at hmem
          rcases hmem with h | h | h <;> simp only [Prod.mk.injEq] at h <;>
            obtain ⟨hre, hce⟩ := h <;> subst hre <;> subst hce <;>
            exact checkWinner_isSome_horiz _ _ _ 1 _ (by omega) hplaced
              (hall (2, 1) (by decide)) (hall (2, 2) (by decide))
              (hall (2, 3) (by decide))
        · rw [List.mem_cons, List.mem_cons, List.mem_singleton] at hmem
          rcases hmem with h | h | h <;> simp only [Prod.mk.injEq] at h <;>
            obtain ⟨hre, hce⟩ := h <;> subst hre <;> subst hce <;>
            exact checkWinner_isSome_horiz _ _ _ 2 _ (by omega) hplaced
              (hall (2, 2) (by decide)) (hall (2, 3) (by decide))
              (hall (2, 4) (by decide))
        · rw [List.mem_cons, List.mem_cons, List.mem_singleton] at hmem
          rcases hmem with h | h | h <;> simp only [Prod.mk.injEq] at h <;>
            obtain ⟨hre, hce⟩ := h <;> subst hre <;> subst hce <;>
            exact checkWinner_isSome_vert _ _ _ _ hplaced
              (hall (0, 0) (by decide)) (hall (1, 0) (by decide))
              (hall (2, 0) (by decide))
        · rw [List.mem_cons, List.mem_cons, List.mem_singleton] at hmem
          rcases hmem with h | h | h <;> simp only [Prod.mk.injEq] at h <;>
            obtain ⟨hre, hce⟩ := h <;> subst hre <;> subst hce <;>
            exact checkWinner_isSome_vert _ _ _ _ hplaced
              (hall (0, 1) (by decide)) (hall (1, 1) (by decide))
              (hall (2, 1) (by decide))
        · rw [List.mem_cons, List.mem_cons, List.mem_singleton] at hmem
          rcases hmem with h | h | h <;> simp only [Prod.mk.injEq] at h <;>
            obtain ⟨hre, hce⟩ := h <;> subst hre <;> subst hce <;>
            exact checkWinner_isSome_vert _ _ _ _ hplaced
              (hall (0, 2) (by decide)) (hall (1, 2) (by decide))
              (hall (2, 2) (by decide))
        · rw [List.mem_cons, List.mem_cons, List.mem_singleton] at hmem
          rcases hmem with h | h | h <;> simp only [Prod.mk.injEq] at h <;>
            obtain ⟨hre, hce⟩ := h <;> subst hre <;> subst hce <;>
            exact checkWinner_isSome_vert _ _ _ _ hplaced
              (hall (0, 3) (by decide)) (hall (1, 3) (by decide))
              (hall (2, 3) (by decide))
        · rw [List.mem_cons, List.mem_cons, List.mem_singleton] at hmem
          rcases hmem with h | h | h <;> simp only [Prod.mk.injEq] at h <;>
            obtain ⟨hre, hce⟩ := h <;> subst hre <;> subst hce <;>
            exact checkWinner_isSome_vert _ _ _ _ hplaced
              (hall (0, 4) (by decide)) (hall (1, 4) (by decide))
              (hall (2, 4) (by decide))
        · rw [List.mem_cons, List.mem_cons, List.mem_singleton] at hmem
          rcases hmem with h | h | h <;> simp only [Prod.mk.injEq] at h <;>
            obtain ⟨hre, hce⟩ := h <;> subst hre <;> subst hce <;>
            exact checkWinner_isSome_diagDown _ _ _ 0 _ (by decide) hplaced
              (hall (0, 0) (by decide)) (hall (1, 1) (by decide))
              (hall (2, 2) (by decide))
        · rw [List.mem_cons, List.mem_cons, List.mem_singleton] at hmem
          rcases hmem with h | h | h <;> simp only [Prod.mk.injEq] at h <;>
            obtain ⟨hre, hce⟩ := h <;> subst hre <;> subst hce <;>
            exact checkWinner_isSome_diagDown _ _ _ 1 _ (by decide) hplaced
              (hall (0, 1) (by decide)) (hall (1, 2) (by decide))
              (hall (2, 3) (by decide))
        · rw [List.mem_cons, List.mem_cons, List.mem_singleton] at hmem
          rcases hmem with h | h | h <;> simp only [Prod.mk.injEq] at h <;>
            obtain ⟨hre, hce⟩ := h <;> subst hre <;> subst hce <;>
            exact checkWinner_isSome_diagDown _ _ _ 2 _ (by decide) hplaced
              (hall (0, 2) (by decide)) (hall (1, 3) (by decide))
              (hall (2, 4) (by decide))
        · rw [List.mem_cons, List.mem_cons, List.mem_singleton] at hmem
          rcases hmem with h | h | h <;> simp only [Prod.mk.injEq] at h <;>
            obtain ⟨hre, hce⟩ := h <;> subst hre <;> subst hce <;>
            exact checkWinner_isSome_diagUp _ _ _ 0 _ (by decide) hplaced
              (hall (2, 0) (by decide)) (hall (1, 1) (by decide))
              (hall (0, 2) (by decide))
        · rw [List.mem_cons, List.mem_cons, List.mem_singleton] at hmem
          rcases hmem with h | h | h <;> simp only [Prod.mk.injEq] at h <;>
            obtain ⟨hre, hce⟩ := h <;> subst hre <;> subst hce <;>
            exact checkWinner_isSome_diagUp _ _ _ 1 _ (by decide) hplaced
              (hall (2, 1) (by decide)) (hall (1, 2) (by decide))
              (hall (0, 3) (by decide))
        · rw [List.mem_cons, List.mem_cons, List.mem_singleton] at hmem
          rcases hmem with h | h | h <;> simp only [Prod.mk.injEq] at h <;>
            obtain ⟨hre, hce⟩ := h <;> subst hre <;> subst hce <;>
            exact checkWinner_isSome_diagUp _ _ _ 2 _ (by decide) hplaced
              (hall (2, 2) (by decide)) (hall (1, 3) (by decide))
              (hall (0, 4) (by decide))
      rw [hcw] at hsome
      cases hsome
  · have hres : GameLogic.makeMove s col =
        (true, { board := setCell s.board r col s.currentPlayer,
                 currentPlayer := s.currentPlayer, gameOver := true }, [call]) := by
      unfold GameLogic.makeMove
      simp only [hgo, Bool.false_eq_true, if_false, hr]
      rw [hcw]
    refine ⟨by rw [hres]; simp, ?_, ?_⟩
    · intro hnopre _
      rcases checkWinner_cases _ _ _ _ hcw with hh | hv | hd | hu
      · rw [hplaced] at hh
        unfold WinChecker.checkHorizontalWin at hh
        rcases hs : WinChecker.hScan (setCell s.board r col s.currentPlayer) r
            (some s.currentPlayer) [0, 1, 2, 3, 4] 0 0 with _ | sc <;> rw [hs] at hh
        · cases hh
        · obtain ⟨hsc2, hc1, hc2, hc3⟩ := hScan_sound _ _ _ _ hs
          rw [cellIs_eq] at hc1 hc2 hc3
          have hallw : windowAll (setCell s.board r col s.currentPlayer)
              [(r, sc), (r, sc + 1), (r, sc + 2)] s.currentPlayer := by
            intro q hq
            rw [List.mem_cons, List.mem_cons, List.mem_singleton] at hq
            rcases hq with rfl | rfl | rfl
            · exact hc1
            · exact hc2
            · exact hc3
          have hwmem : [(r, sc), (r, sc + 1), (r, sc + 2)] ∈ winWindows := by
            interval_cases r <;> interval_cases sc <;> decide
          refine ⟨_, hwmem,
            window_hit_or_preexisting _ _ _ _ _ _ hnopre hwmem hother hallw, ?_⟩
          rw [hres]
          exact hallw
      · rw [hplaced] at hv
        unfold WinChecker.checkVerticalWin at hv
        rcases hs : WinChecker.vScan (setCell s.board r col s.currentPlayer) col
            (some s.currentPlayer) [0, 1, 2] 0 0 with _ | sr <;> rw [hs] at hv
        · cases hv
        · obtain ⟨hsr0, hc1, hc2, hc3⟩ := vScan_sound _ _ _ _ hs
          rw [cellIs_eq] at hc1 hc2 hc3
          have hallw : windowAll (setCell s.board r col s.currentPlayer)
              [(0, col), (1, col), (2, col)] s.currentPlayer := by
            intro q hq
            rw [List.mem_cons, List.mem_cons, List.mem_singleton] at hq
            rcases hq with rfl | rfl | rfl
            · exact hc1
            · exact hc2
            · exact hc3
          have hwmem : [(0, col), (1, col), (2, col)] ∈ winWindows := by
            interval_cases col <;> decide
          refine ⟨_, hwmem, ?_, by rw [hres]; exact hallw⟩
          interval_cases r <;> simp
      · rw [hplaced] at hd
        unfold WinChecker.checkDiagonalDownWin at hd
        rcases hs : ([0, 1, 2] : List Nat).find? (fun c =>
            WinChecker.cellIs (setCell s.board r col s.currentPlayer) 0 c
              (some s.currentPlayer) &&
            WinChecker.cellIs (setCell s.board r col s.currentPlayer) 1 (c + 1)
              (some s.currentPlayer) &&
            WinChecker.cellIs (setCell s.board r col s.currentPlayer) 2 (c + 2)
              (some s.currentPlayer)) with _ | c0 <;> rw [hs] at hd
        · cases hd
        · have hc0 : c0 ∈ ([0, 1, 2] : List Nat) := List.mem_of_find?_eq_some hs
          have hpred := List.find?_some hs
          simp only [Bool.and_eq_true, cellIs_eq] at hpred
          obtain ⟨⟨hc1, hc2⟩, hc3⟩ := hpred
          have hallw : windowAll (setCell s.board r col s.currentPlayer)
              [(0, c0), (1, c0 + 1), (2, c0 + 2)] s.currentPlayer := by
            intro q hq
            rw [List.mem_cons, List.mem_cons, List.mem_singleton] at hq
            rcases hq with rfl | rfl | rfl
            · exact hc1
            · exact hc2
            · exact hc3
          have hwmem : [(0, c0), (1, c0 + 1), (2, c0 + 2)] ∈ winWindows := by
            fin_cases hc0 <;> decide
          refine ⟨_, hwmem,
            window_hit_or_preexisting _ _ _ _ _ _ hnopre hwmem hother hallw, ?_⟩
          rw [hres]
          exact hallw
      · rw [hplaced] at hu
        unfold WinChecker.checkDiagonalUpWin at hu
        rcases hs : ([0, 1, 2] : List Nat).find? (fun c =>
            WinChecker.cellIs (setCell s.board r col s.currentPlayer) 2 c
              (some s.currentPlayer) &&
            WinChecker.cellIs (setCell s.board r col s.currentPlayer) 1 (c + 1)
              (some s.currentPlayer) &&
            WinChecker.cellIs (setCell s.board r col s.currentPlayer) 0 (c + 2)
              (some s.currentPlayer)) with _ | c0 <;> rw [hs] at hu
        · cases hu
        · have hc0 : c0 ∈ ([0, 1, 2] : List Nat) := List.mem_of_find?_eq_some hs
          have hpred := List.find?_some hs
          simp only [Bool.and_eq_true, cellIs_eq] at hpred
          obtain ⟨⟨hc1, hc2⟩, hc3⟩ := hpred
          have hallw : windowAll (setCell s.board r col s.currentPlayer)
              [(2, c0), (1, c0 + 1), (0, c0 + 2)] s.currentPlayer := by
            intro q hq
            rw [List.mem_cons, List.mem_cons, List.mem_singleton] at hq
            rcases hq with rfl | rfl | rfl
            · exact hc1
            · exact hc2
            · exact hc3
          have hwmem : [(2, c0), (1, c0 + 1), (0, c0 + 2)] ∈ winWindows := by
            fin_cases hc0 <;> decide
          refine ⟨_, hwmem,
            window_hit_or_preexisting _ _ _ _ _ _ hnopre hwmem hother hallw, ?_⟩
          rw [hres]
          exact hallw
    · intro w hw hmem hall
      constructor
      · rw [hres]
        simp
      · rw [hres]

/-- Witness for C5: player one completes column 0 vertically; the callback
fires exactly once and the state is terminal through the win branch. -/
theorem makeMove_onWin_once_win_over_draw_witness :
    (GameLogic.makeMove
      { board := [[0, 0, 0, 0, 0], [1, 0, 0, 0, 0], [1, 2, 2, 0, 0]],
        currentPlayer := 1, gameOver := false } 0).2.2.length ≤ 1 ∧
    ((∀ w ∈ winWindows,
        ¬ windowAll [[0, 0, 0, 0, 0], [1, 0, 0, 0, 0], [1, 2, 2, 0, 0]] w 1) →
      (GameLogic.makeMove
        { board := [[0, 0, 0, 0, 0], [1, 0, 0, 0, 0], [1, 2, 2, 0, 0]],
          currentPlayer := 1, gameOver := false } 0).2.2 ≠ [] →
      ∃ w ∈ winWindows, (0, 0) ∈ w ∧
        windowAll (GameLogic.makeMove
          { board := [[0, 0, 0, 0, 0], [1, 0, 0, 0, 0], [1, 2, 2, 0, 0]],
            currentPlayer := 1, gameOver := false } 0).2.1.board w 1) ∧
    (∀ w ∈ winWindows, (0, 0) ∈ w →
      windowAll (GameLogic.makeMove
        { board := [[0, 0, 0, 0, 0], [1, 0, 0, 0, 0], [1, 2, 2, 0, 0]],
          currentPlayer := 1, gameOver := false } 0).2.1.board w 1 →
      (GameLogic.makeMove
        { board := [[0, 0, 0, 0, 0], [1, 0, 0, 0, 0], [1, 2, 2, 0, 0]],
          currentPlayer := 1, gameOver := false } 0).2.2.length = 1 ∧
      (GameLogic.makeMove
        { board := [[0, 0, 0, 0, 0], [1, 0, 0, 0, 0], [1, 2, 2, 0, 0]],
          currentPlayer := 1, gameOver := false } 0).2.1.gameOver = true) :=
  makeMove_onWin_once_win_over_draw _ 0 0 (by decide) (by decide) (by decide)

end ClaimC5

section ClaimC3Prep

open MCTSOpponent

/-- The structural invariant of every tree node the search loop produces:
untried moves are valid moves of the node's state, a childless node still has
its full untried-move list, and every child arose from dropping a valid move
for the flipped player on the parent state (recursively). -/
def NodeInv : MCTSNode → Prop
  | .mk state _ _ untried pjm children =>
    untried ⊆ getValidMoves state ∧
    (children = [] → untried = getValidMoves state) ∧
    ∀ c ∈ children,
      (∃ m ∈ getValidMoves state, c.state = MCTSOpponent.makeMove state m (otherPlayer pjm)) ∧
      NodeInv c
  termination_by n => sizeOf n
  decreasing_by
    rename_i hmem
    have h1 := List.sizeOf_lt_of_mem hmem
    simp_wf
    omega

theorem nodeInv_new (b : Board) (pjm : Nat) : NodeInv (MCTSNode.new b pjm) := by
  unfold MCTSNode.new NodeInv
  exact ⟨fun x hx => hx, fun _ => rfl, fun c hc => absurd hc (List.not_mem_nil c)⟩

theorem mem_getValidMoves (b : Board) (m : Nat) :
    m ∈ getValidMoves b ↔ m < 5 ∧ getCell b 0 m = some EMPTY := by
  simp only [getValidMoves, List.mem_filter, List.mem_cons, List.not_mem_nil, or_false,
    decide_eq_true_eq]
  constructor
  · rintro ⟨h1, h2⟩
    exact ⟨by omega, h2⟩
  · rintro ⟨h1, h2⟩
    exact ⟨by omega, h2⟩

theorem getValidMoves_ne_nil_of_not_full (b : Board)
    (h : MCTSOpponent.isBoardFull b = false) : getValidMoves b ≠ [] := by
  simp only [MCTSOpponent.isBoardFull, List.all_cons, List.all_nil, Bool.and_true,
    Bool.and_eq_false_iff, Bool.not_eq_false', decide_eq_true_eq] at h
  have hex : ∃ c, c < 5 ∧ getCell b 0 c = some EMPTY := by
    rcases h with h | h | h | h | h
    · exact ⟨0, by omega, h⟩
    · exact ⟨1, by omega, h⟩
    · exact ⟨2, by omega, h⟩
    · exact ⟨3, by omega, h⟩
    · exact ⟨4, by omega, h⟩
  obtain ⟨c, hc5, hc⟩ := hex
  exact List.ne_nil_of_mem ((mem_getValidMoves b c).mpr ⟨hc5, hc⟩)

theorem isBoardFull_false_of_not_gameOver (b : Board)
    (h : isGameOver b = false) : MCTSOpponent.isBoardFull b = false := by
  simp only [isGameOver, Bool.or_eq_false_iff] at h
  exact h.2

/-- Dropping into a column whose entry is empty always finds a row: the
in-range empty cell closest to the floor. -/
theorem lowestEmptyRow_of_entry (b : Board) (m : Nat) (h : getCell b 0 m = some EMPTY) :
    ∃ r, lowestEmptyRow b m = some r := by
  unfold lowestEmptyRow
  split_ifs <;> simp_all

theorem otherPlayer_ne_empty (p : Nat) : otherPlayer p ≠ EMPTY := by
  unfold otherPlayer PLAYER_ONE PLAYER_TWO EMPTY
  split_ifs <;> omega

/-- Applying `MCTSOpponent.findMove` on a board and the same board with one valid-drop
cell overwritten by a token finds exactly that column. -/
theorem findMove_of_set (b : Board) (r m p : Nat) (hcell : getCell b r m = some EMPTY)
    (hr3 : r < 3) (hm5 : m < 5) (hp : p ≠ EMPTY) :
    findMove b (setCell b r m p) = (m : Int) := by
  have hself := getCell_setCell_self b r m p EMPTY hcell
  have hpred : (fun c => [0, 1, 2].any fun r' =>
      getCell b r' c != getCell (setCell b r m p) r' c) = fun c => decide (c = m) := by
    funext c
    by_cases hc : c = m
    · subst hc
      have hne2 : getCell b r c ≠ getCell (setCell b r c p) r c := by
        rw [hcell, hself]
        intro hx
        exact hp (Option.some.inj hx).symm
      have hmem : r ∈ ([0, 1, 2] : List Nat) := by interval_cases r <;> simp
      have hdec : (decide (c = c)) = true := by simp
      rw [hdec, List.any_eq_true]
      exact ⟨r, hmem, bne_iff_ne.mpr hne2⟩
    · have h0 := getCell_setCell_ne b r m p 0 c (Or.inr hc)
      have h1 := getCell_setCell_ne b r m p 1 c (Or.inr hc)
      have h2 := getCell_setCell_ne b r m p 2 c (Or.inr hc)
      simp [h0, h1, h2, hc]
  unfold findMove
  rw [hpred]
  interval_cases m <;> simp [List.find?]

theorem centerPreference_mem (moves : List Nat) (hne : moves ≠ []) :
    ∃ m ∈ moves, centerPreference moves = (m : Int) := by
  match moves, hne with
  | m0 :: rest, _ =>
    unfold centerPreference
    cases hf : [2, 1, 3, 0, 4].find? (fun c => (m0 :: rest).contains c) with
    | none => exact ⟨m0, by simp, rfl⟩
    | some c =>
      have hc := List.find?_some hf
      have hc' : c ∈ m0 :: rest := by simpa using hc
      exact ⟨c, hc', rfl⟩

theorem bestChildFold_mem (rootState : Board) (simCount : Nat) :
    ∀ (cs : List MCTSNode) (best : Int) (bsc : Option Rat),
    bestChildFold rootState simCount cs best bsc = best ∨
    ∃ c ∈ cs, bestChildFold rootState simCount cs best bsc = findMove rootState c.state := by
  intro cs
  induction cs with
  | nil => intro best bsc; exact Or.inl rfl
  | cons c rest ih =>
    intro best bsc
    unfold bestChildFold
    split
    · rcases ih (findMove rootState c.state) (some (scoreOf c simCount)) with h | ⟨c', hc', h⟩
      · exact Or.inr ⟨c, by simp, h⟩
      · exact Or.inr ⟨c', by simp [hc'], h⟩
    · rcases ih best bsc with h | ⟨c', hc', h⟩
      · exact Or.inl h
      · exact Or.inr ⟨c', by simp [hc'], h⟩

theorem bestChildFold_nonempty (rootState : Board) (simCount : Nat)
    (c0 : MCTSNode) (rest : List MCTSNode) :
    ∃ c ∈ c0 :: rest,
      bestChildFold rootState simCount (c0 :: rest) (-1) none = findMove rootState c.state := by
  unfold bestChildFold
  simp only [if_true]
  rcases bestChildFold_mem rootState simCount rest (findMove rootState c0.state)
      (some (scoreOf c0 simCount)) with h | ⟨c', hc', h⟩
  · exact ⟨c0, by simp, h⟩
  · exact ⟨c', by simp [hc'], h⟩

theorem isBoardEmpty_center (b : Board) (h : isBoardEmpty b = true) :
    getCell b 0 2 = some EMPTY := by
  simp only [isBoardEmpty, List.all_cons, List.all_nil, Bool.and_true, Bool.and_eq_true,
    decide_eq_true_eq] at h
  exact h.1.2.2.1

end ClaimC3Prep

section ClaimC3

open MCTSOpponent

set_option maxHeartbeats 2000000 in
/-- Computation of one iteration at a terminal node: no expansion, immediate
rollout (the game is over), backpropagation bumps the node itself. -/
theorem mctsIterate_terminal (s : Board) (v : Nat) (w : Rat) (u : List Nat) (p : Nat)
    (cs : List MCTSNode) (o : Oracle) (hg : isGameOver s = true) :
    mctsIterate (.mk s v w u p cs) o =
    some (.mk s (v + 1) (addScore w p (getWinner s)) u p cs, getWinner s, o) := by
  unfold mctsIterate
  rw [hg]
  simp

set_option maxHeartbeats 2000000 in
/-- Computation of one iteration in the selection branch (non-terminal, fully
expanded, children non-empty): descend into the oracle-selected child and bump
the node with the recursive result. -/
theorem mctsIterate_selection (s : Board) (v : Nat) (w : Rat) (u : List Nat) (p : Nat)
    (c0 : MCTSNode) (rest : List MCTSNode) (o : Oracle) (c' : MCTSNode) (winner : Nat)
    (o' : Oracle) (hg : isGameOver s = false) (hu : u.isEmpty = true)
    (heq : mctsIterate
      ((c0 :: rest).get ⟨o.headD 0 % (c0 :: rest).length,
        Nat.mod_lt _ (Nat.succ_pos _)⟩) o.tail = some (c', winner, o')) :
    mctsIterate (.mk s v w u p (c0 :: rest)) o =
    some (.mk s (v + 1) (addScore w p winner) u p
      ((c0 :: rest).set (o.headD 0 % (c0 :: rest).length) c'), winner, o') := by
  unfold mctsIterate
  rw [hg, hu]
  simp only [Bool.not_false, Bool.true_and, if_true]
  rw [heq]

set_option maxHeartbeats 2000000 in
/-- Computation of one iteration in the expansion branch (non-terminal, some
untried move left): expand the oracle-chosen untried move, roll out from the
new child, and bump both the child and the node. -/
theorem mctsIterate_expansion (s : Board) (v : Nat) (w : Rat) (u : List Nat) (p : Nat)
    (cs : List MCTSNode) (o : Oracle) (hg : isGameOver s = false) (hu : u.isEmpty = false) :
    mctsIterate (.mk s v w u p cs) o =
    some (.mk s (v + 1)
      (addScore w p (getWinner (rollout 15
        (MCTSOpponent.makeMove s (u.getD (o.headD 0 % u.length) 0) (otherPlayer p))
        (otherPlayer p) o.tail).1))
      (u.filter (fun x => x != u.getD (o.headD 0 % u.length) 0)) p
      (cs ++ [.mk
        (MCTSOpponent.makeMove s (u.getD (o.headD 0 % u.length) 0) (otherPlayer p)) 1
        (addScore 0 (otherPlayer p) (getWinner (rollout 15
          (MCTSOpponent.makeMove s (u.getD (o.headD 0 % u.length) 0) (otherPlayer p))
          (otherPlayer p) o.tail).1))
        (getValidMoves
          (MCTSOpponent.makeMove s (u.getD (o.headD 0 % u.length) 0) (otherPlayer p)))
        (otherPlayer p) []]),
      getWinner (rollout 15
        (MCTSOpponent.makeMove s (u.getD (o.headD 0 % u.length) 0) (otherPlayer p))
        (otherPlayer p) o.tail).1,
      (rollout 15
        (MCTSOpponent.makeMove s (u.getD (o.headD 0 % u.length) 0) (otherPlayer p))
        (otherPlayer p) o.tail).2) := by
  unfold mctsIterate
  rw [hg, hu]
  simp

/-- One search iteration never crashes on an invariant-satisfying node, and
returns an invariant-satisfying node with the same board snapshot.  (The
`selectChild` null-dereference is unreachable: a non-terminal fully-expanded
node always has children, because a childless node keeps its full untried
list and a non-terminal board has a valid move.) -/
theorem mctsIterate_ok :
    ∀ (k : Nat) (n : MCTSNode), sizeOf n ≤ k → ∀ (o : Oracle), NodeInv n →
    ∃ n' winner o', mctsIterate n o = some (n', winner, o') ∧ NodeInv n' ∧
      n'.state = n.state := by
  intro k
  induction k with
  | zero =>
    intro n hn
    obtain ⟨s, v, w, u, p, cs⟩ := n
    exact absurd hn (by simp)
  | succ k ih =>
    intro n hn o hinv
    obtain ⟨s, v, w, u, p, cs⟩ := n
    unfold NodeInv at hinv
    obtain ⟨hsub, hnilrel, hchild⟩ := hinv
    by_cases hg : isGameOver s
    · refine ⟨MCTSNode.mk s (v + 1) (addScore w p (getWinner s)) u p cs, getWinner s, o,
        mctsIterate_terminal s v w u p cs o hg, ?_, rfl⟩
      unfold NodeInv
      exact ⟨hsub, hnilrel, hchild⟩
    · rw [Bool.not_eq_true] at hg
      by_cases hu : u.isEmpty
      · cases cs with
        | nil =>
          exfalso
          have huv : u = getValidMoves s := hnilrel rfl
          have hne : getValidMoves s ≠ [] :=
            getValidMoves_ne_nil_of_not_full s (isBoardFull_false_of_not_gameOver s hg)
          rw [List.isEmpty_iff] at hu
          exact hne (huv ▸ hu)
        | cons c0 rest =>
          have hk0lt : o.headD 0 % (c0 :: rest).length < (c0 :: rest).length :=
            Nat.mod_lt _ (Nat.succ_pos _)
          have hcmem : (c0 :: rest).get ⟨o.headD 0 % (c0 :: rest).length, hk0lt⟩ ∈ c0 :: rest :=
            List.get_mem _ _ _
          have hcsize : sizeOf ((c0 :: rest).get ⟨o.headD 0 % (c0 :: rest).length, hk0lt⟩) ≤ k := by
            have h1 := List.sizeOf_lt_of_mem hcmem
            have h2 : sizeOf (MCTSNode.mk s v w u p (c0 :: rest)) ≤ k + 1 := hn
            simp only [MCTSNode.mk.sizeOf_spec] at h2
            omega
          obtain ⟨hrel, hinvc⟩ := hchild _ hcmem
          obtain ⟨c', winner, o', heq, hinvc', hstatec⟩ := ih _ hcsize o.tail hinvc
          refine ⟨MCTSNode.mk s (v + 1) (addScore w p winner) u p
              ((c0 :: rest).set (o.headD 0 % (c0 :: rest).length) c'), winner, o',
            mctsIterate_selection s v w u p c0 rest o c' winner o' hg hu heq, ?_, rfl⟩
          unfold NodeInv
          refine ⟨hsub, ?_, ?_⟩
          · intro hsetnil
            have hlen := congrArg List.length hsetnil
            simp at hlen
          · intro c'' hc''
            rcases List.mem_or_eq_of_mem_set hc'' with hmem | rfl
            · exact hchild c'' hmem
            · obtain ⟨m, hm, hms⟩ := hrel
              exact ⟨⟨m, hm, by rw [hstatec, hms]⟩, hinvc'⟩
      · rw [Bool.not_eq_true] at hu
        have hune : u ≠ [] := by
          intro hnil
          rw [hnil] at hu
          simp at hu
        have hulen : 0 < u.length := List.length_pos.mpr hune
        have hjlt : o.headD 0 % u.length < u.length := Nat.mod_lt _ hulen
        have hmmem : u.getD (o.headD 0 % u.length) 0 ∈ u := by
          rw [List.getD_eq_getElem u 0 hjlt]
          exact List.getElem_mem hjlt
        refine ⟨_, _, _, mctsIterate_expansion s v w u p cs o hg hu, ?_, rfl⟩
        unfold NodeInv
        refine ⟨fun x hx => hsub (List.mem_of_mem_filter hx), ?_, ?_⟩
        · intro happ
          have hlen := congrArg List.length happ
          simp at hlen
        · intro c'' hc''
          rcases List.mem_append.mp hc'' with hmem | hmem
          · exact hchild c'' hmem
          · rw [List.mem_singleton] at hmem
            subst hmem
            refine ⟨⟨u.getD (o.headD 0 % u.length) 0, hsub hmmem, rfl⟩, ?_⟩
            unfold NodeInv
            exact ⟨fun x hx => hx, fun _ => rfl, fun c hc => absurd hc (List.not_mem_nil c)⟩

/-- The whole search loop never crashes on an invariant root and preserves
the invariant and the root board snapshot. -/
theorem runSims_ok (iters : Nat) :
    ∀ (o : Oracle) (root : MCTSNode), NodeInv root →
    ∃ root' o', runSims iters o root = some (root', o') ∧ NodeInv root' ∧
      root'.state = root.state := by
  induction iters with
  | zero => intro o root hinv; exact ⟨root, o, rfl, hinv, rfl⟩
  | succ n ih =>
    intro o root hinv
    obtain ⟨root1, winner, o1, heq, hinv1, hstate1⟩ :=
      mctsIterate_ok (sizeOf root) root le_rfl o hinv
    obtain ⟨root', o', heq', hinv', hstate'⟩ := ih o1 root1 hinv1
    refine ⟨root', o', ?_, hinv', by rw [hstate', hstate1]⟩
    simp only [runSims]
    rw [heq]
    exact heq'

/-- The final selection on an invariant root returns a valid move of the root
board whenever one exists: either the best scored child (whose move is
recovered by `findMove`) or the center-preferring fallback over the untried
moves. -/
theorem finalSelect_valid (root : MCTSNode) (simCount : Nat) (b : Board)
    (hinv : NodeInv root) (hstate : root.state = b) (hne : getValidMoves b ≠ []) :
    ∃ m ∈ getValidMoves b, finalSelect root simCount = (m : Int) := by
  obtain ⟨s, v, w, u, p, cs⟩ := root
  have hs : s = b := hstate
  subst hs
  unfold NodeInv at hinv
  obtain ⟨hsub, hnilrel, hchild⟩ := hinv
  unfold finalSelect
  simp only [MCTSNode.state, MCTSNode.children, MCTSNode.untriedMoves]
  cases cs with
  | nil =>
    have huv : u = getValidMoves s := hnilrel rfl
    simp only [bestChildFold]
    rw [if_pos ⟨by trivial, by rw [huv]; exact hne⟩, huv]
    exact centerPreference_mem _ hne
  | cons c0 rest =>
    obtain ⟨c, hc, heq⟩ := bestChildFold_nonempty s simCount c0 rest
    obtain ⟨⟨m, hm, hms⟩, hinvc⟩ := hchild c hc
    have hmv := (mem_getValidMoves s m).mp hm
    obtain ⟨r, hrow⟩ := lowestEmptyRow_of_entry s m hmv.2
    obtain ⟨hr3, hcell, hlow⟩ := lowestEmptyRow_spec s m r hrow
    have hmk : MCTSOpponent.makeMove s m (otherPlayer p) = setCell s r m (otherPlayer p) := by
      unfold MCTSOpponent.makeMove
      rw [hrow]
    have hfm : findMove s c.state = (m : Int) := by
      rw [hms, hmk]
      exact findMove_of_set s r m (otherPlayer p) hcell hr3 hmv.1 (otherPlayer_ne_empty p)
    refine ⟨m, hm, ?_⟩
    rw [heq, hfm, if_neg ?hcond]
    case hcond =>
      intro hcon
      have h1 := hcon.1
      omega
/-- C3: whenever the board has at least one legal move (a column whose entry
cell at row 0 is `EMPTY`), `getBestMove` — for every configuration, realised
simulation count and oracle — returns (without crashing) a column in `[0, 5)`
whose entry cell is `EMPTY`; and on boards satisfying the no-floating-token
invariant the sentinel `-1` is returned only when the board is completely
full (all 15 cells occupied). -/
theorem getBestMove_returns_legal_move (p2 : Bool) (b : Board) (iters : Nat) (o : Oracle) :
    (getValidMoves b ≠ [] →
      ∃ m : Nat, getBestMove p2 b iters o = some (m : Int) ∧ m ∈ getValidMoves b) ∧
    (WF b → NoFloating b → getBestMove p2 b iters o = some (-1) →
      ∀ r < 3, ∀ c < 5, getCell b r c ≠ some EMPTY) := by
  have part1 : getValidMoves b ≠ [] →
      ∃ m : Nat, getBestMove p2 b iters o = some (m : Int) ∧ m ∈ getValidMoves b := by
    intro hne
    unfold getBestMove
    cases hfw : findWinningMove b (moverOf p2) with
    | some m =>
      refine ⟨m, rfl, ?_⟩
      unfold findWinningMove at hfw
      exact List.mem_of_find?_eq_some hfw
    | none =>
      cases hbl : findWinningMove b (otherPlayer (moverOf p2)) with
      | some m =>
        refine ⟨m, rfl, ?_⟩
        unfold findWinningMove at hbl
        exact List.mem_of_find?_eq_some hbl
      | none =>
        by_cases hemp : isBoardEmpty b
        · rw [if_pos hemp]
          exact ⟨2, by norm_num,
            (mem_getValidMoves b 2).mpr ⟨by omega, isBoardEmpty_center b hemp⟩⟩
        · rw [if_neg hemp]
          obtain ⟨root', o', hrun, hinv', hstate'⟩ :=
            runSims_ok iters o (MCTSNode.new b (otherPlayer (moverOf p2))) (nodeInv_new _ _)
          rw [hrun]
          have hstb : root'.state = b := by rw [hstate']; rfl
          obtain ⟨m, hm, hsel⟩ := finalSelect_valid root' iters b hinv' hstb hne
          refine ⟨m, ?_, hm⟩
          show some (finalSelect root' iters) = some (m : Int)
          rw [hsel]
  refine ⟨part1, ?_⟩
  intro hwf hinvb hres r hr c hc
  by_cases hne : getValidMoves b = []
  · have hent : getCell b 0 c ≠ some EMPTY := by
      intro hent
      exact List.ne_nil_of_mem ((mem_getValidMoves b c).mpr ⟨hc, hent⟩) hne
    exact column_occupied_of_entry b hinvb c hc hent r hr
  · obtain ⟨m, hm, _⟩ := part1 hne
    rw [hm] at hres
    simp only [Option.some.injEq] at hres
    omega

/-- Witness for C3: a mid-game board with one token; with a realised budget of
two simulations and the all-zeros oracle, the engine returns a legal column. -/
theorem getBestMove_returns_legal_move_witness :
    ∃ m : Nat, getBestMove true [[0, 0, 0, 0, 0], [0, 0, 0, 0, 0], [1, 0, 0, 0, 0]] 2 []
        = some (m : Int) ∧
      m ∈ getValidMoves [[0, 0, 0, 0, 0], [0, 0, 0, 0, 0], [1, 0, 0, 0, 0]] :=
  (getBestMove_returns_legal_move true
    [[0, 0, 0, 0, 0], [0, 0, 0, 0, 0], [1, 0, 0, 0, 0]] 2 []).1 (by decide)

end ClaimC3

section ClaimC9

namespace HeapModel

/-- A reference to a JS row array in the heap. -/
abbrev RowRef := Nat

/-- The heap of JS row arrays: entry `i` is the array behind reference `i`;
`Array.prototype.map` and the spread `[...row]` allocate by appending. -/
abbrev Heap := List (List Nat)

/-- A JS board object as `MCTSOpponent.getBestMove` receives it: the outer
array holds references to the three row arrays.  No statement in
`mcts-opponent.ts` ever assigns to the outer array of an existing board
(`board[i] = ...` never occurs; only `newBoard[row][column] = player` inside
`makeMove`, a row-array write), so outer arrays are modelled as values while
row arrays live in the heap where mutation is possible. -/
structure HBoard where
  rows : List RowRef
deriving DecidableEq, Repr

/-- The JS read `board[r][c]` through the heap. -/
def readCell (h : Heap) (b : HBoard) (r c : Nat) : Option Nat :=
  match b.rows[r]? with
  | some ref =>
    match h[ref]? with
    | some row => row[c]?
    | none => none
  | none => none

/-- The observable content of a board: its row arrays as read from the heap. -/
def readBoard (h : Heap) (b : HBoard) : List (Option (List Nat)) :=
  b.rows.map fun ref => h[ref]?

/-- Embeds `MCTSOpponent.cloneBoard`: `board.map(row => [...row])` — allocate a
fresh copy of every row array (references `h.length`, `h.length + 1`, …) and
return a new board holding the fresh references.  The argument is only read. -/
def cloneBoard (h : Heap) (b : HBoard) : Heap × HBoard :=
  (h ++ b.rows.map fun ref => (h[ref]?).getD [],
   ⟨List.range' h.length b.rows.length⟩)

/-- The JS write `board[row][column] = player`: mutate the row array behind
the board's `row`-th reference. -/
def writeCell (h : Heap) (b : HBoard) (r c v : Nat) : Heap :=
  match b.rows[r]? with
  | some ref =>
    match h[ref]? with
    | some row => h.set ref (row.set c v)
    | none => h
  | none => h

/-- Embeds `MCTSOpponent.makeMove` at the heap level: `const newBoard =
this.cloneBoard(board)`, then the floor-upward row search reading `newBoard`,
then (if a row was found) the single write `newBoard[row][column] = player`.
The argument board is never written — only its fresh clone is. -/
def makeMove (h : Heap) (b : HBoard) (column player : Nat) : Heap × HBoard :=
  let h1 := (cloneBoard h b).1
  let nb := (cloneBoard h b).2
  let row :=
    if readCell h1 nb 2 column = some EMPTY then some 2
    else if readCell h1 nb 1 column = some EMPTY then some 1
    else if readCell h1 nb 0 column = some EMPTY then some 0
    else none
  match row with
  | some r => (writeCell h1 nb r column player, nb)
  | none => (h1, nb)

/-- The heap effects of one board-array operation inside
`MCTSOpponent.getBestMove`.  Everything the search does to boards is one of
these two: the entry clone (`boardCopy`, line 179) and the pre-check, tree
and rollout clones are `clone`; every hypothetical placement (`makeMove`
calls at lines 233, 255, 360, 398, 407) is `move`; everything else only
reads.  A whole `getBestMove` call therefore performs some finite sequence
of these operations. -/
inductive HeapOp where
  | clone (b : HBoard)
  | move (b : HBoard) (column player : Nat)

/-- Apply one operation's heap effect. -/
def runOp (h : Heap) : HeapOp → Heap
  | .clone b => (cloneBoard h b).1
  | .move b column player => (makeMove h b column player).1

/-- Apply a sequence of operations' heap effects. -/
def runOps (h : Heap) : List HeapOp → Heap
  | [] => h
  | op :: rest => runOps (runOp h op) rest

theorem cloneBoard_preserves (h : Heap) (b : HBoard) (ref : Nat) (href : ref < h.length) :
    (cloneBoard h b).1[ref]? = h[ref]? := by
  unfold cloneBoard
  exact List.getElem?_append_left href

theorem cloneBoard_length (h : Heap) (b : HBoard) : h.length ≤ (cloneBoard h b).1.length := by
  unfold cloneBoard
  simp

theorem writeCell_preserves (h : Heap) (b : HBoard) (r c v : Nat) (ref : Nat)
    (hfresh : ∀ q ∈ b.rows, ref ≠ q) : (writeCell h b r c v)[ref]? = h[ref]? := by
  unfold writeCell
  cases hq : b.rows[r]? with
  | none => rfl
  | some q =>
    show (match h[q]? with
      | some row => List.set h q (row.set c v)
      | none => h)[ref]? = h[ref]?
    cases hrow : h[q]? with
    | none => rfl
    | some row =>
      show (List.set h q (row.set c v))[ref]? = h[ref]?
      exact List.getElem?_set_ne (Ne.symm (hfresh q (List.getElem?_mem hq)))

theorem writeCell_length (h : Heap) (b : HBoard) (r c v : Nat) :
    (writeCell h b r c v).length = h.length := by
  unfold writeCell
  cases hq : b.rows[r]? with
  | none => rfl
  | some q =>
    show (match h[q]? with
      | some row => List.set h q (row.set c v)
      | none => h).length = h.length
    cases hrow : h[q]? with
    | none => rfl
    | some row =>
      show (List.set h q (row.set c v)).length = h.length
      simp

theorem makeMove_preserves (h : Heap) (b : HBoard) (column player : Nat) (ref : Nat)
    (href : ref < h.length) : (makeMove h b column player).1[ref]? = h[ref]? := by
  unfold makeMove
  dsimp only
  have hclone := cloneBoard_preserves h b ref href
  have hfresh : ∀ q ∈ (cloneBoard h b).2.rows, ref ≠ q := by
    intro q hq
    unfold cloneBoard at hq
    simp only [List.mem_range'_1] at hq
    omega
  split
  · rw [writeCell_preserves _ _ _ _ _ _ hfresh, hclone]
  · exact hclone

theorem makeMove_length (h : Heap) (b : HBoard) (column player : Nat) :
    h.length ≤ (makeMove h b column player).1.length := by
  unfold makeMove
  dsimp only
  have hc := cloneBoard_length h b
  split
  · rw [writeCell_length]
    exact hc
  · exact hc

theorem runOp_preserves (h : Heap) (op : HeapOp) (ref : Nat) (href : ref < h.length) :
    (runOp h op)[ref]? = h[ref]? := by
  cases op with
  | clone b => exact cloneBoard_preserves h b ref href
  | move b column player => exact makeMove_preserves h b column player ref href

theorem runOp_length (h : Heap) (op : HeapOp) : h.length ≤ (runOp h op).length := by
  cases op with
  | clone b => exact cloneBoard_length h b
  | move b column player => exact makeMove_length h b column player

theorem runOps_preserves (ops : List HeapOp) :
    ∀ (h : Heap) (ref : Nat), ref < h.length → (runOps h ops)[ref]? = h[ref]? := by
  induction ops with
  | nil => intro h ref _; rfl
  | cons op rest ih =>
    intro h ref href
    have h1 : ref < (runOp h op).length := lt_of_lt_of_le href (runOp_length h op)
    show (runOps (runOp h op) rest)[ref]? = h[ref]?
    rw [ih (runOp h op) ref h1, runOp_preserves h op ref href]

end HeapModel

/-- C9: `MCTSOpponent.getBestMove` never mutates the board passed to it.  In
the heap model, every board-array effect of a `getBestMove` call is some
sequence of `cloneBoard` and (internally cloning) `makeMove` operations, and
any such sequence leaves every row array of the input board — hence all 15 of
its cells — exactly as it was: every write inside `makeMove` targets a row
freshly allocated by its own clone. -/
theorem getBestMove_heap_ops_never_mutate_input (ops : List HeapModel.HeapOp)
    (h : HeapModel.Heap) (b : HeapModel.HBoard)
    (hvalid : ∀ ref ∈ b.rows, ref < h.length) :
    HeapModel.readBoard (HeapModel.runOps h ops) b = HeapModel.readBoard h b := by
  unfold HeapModel.readBoard
  apply List.map_congr_left
  intro ref href
  exact HeapModel.runOps_preserves ops h ref (hvalid ref href)

/-- Witness for C9: a three-row heap, a board referencing rows 0, 1, 2, and a
trace that clones the board and drops tokens on (clones of) it twice; the
board's observable content is unchanged. -/
theorem getBestMove_heap_ops_never_mutate_input_witness :
    HeapModel.readBoard
      (HeapModel.runOps [[0, 0, 0, 0, 0], [0, 0, 0, 0, 0], [1, 2, 0, 0, 0]]
        [HeapModel.HeapOp.clone ⟨[0, 1, 2]⟩, HeapModel.HeapOp.move ⟨[0, 1, 2]⟩ 2 2,
         HeapModel.HeapOp.move ⟨[3, 4, 5]⟩ 0 1])
      ⟨[0, 1, 2]⟩ =
    HeapModel.readBoard [[0, 0, 0, 0, 0], [0, 0, 0, 0, 0], [1, 2, 0, 0, 0]] ⟨[0, 1, 2]⟩ :=
  getBestMove_heap_ops_never_mutate_input _ _ _ (by decide)

end ClaimC9

example :
    GameLogic.makeMove
      { board := [[0, 0, 0, 0, 0], [0, 0, 0, 0, 0], [0, 0, 0, 0, 0]],
        currentPlayer := 1, gameOver := false } 2 =
    (true,
      { board := [[0, 0, 0, 0, 0], [0, 0, 0, 0, 0], [0, 0, 1, 0, 0]],
        currentPlayer := 2, gameOver := false }, []) := by decide

example :
    GameLogic.makeMove
      { board := [[0, 0, 0, 0, 0], [1, 0, 0, 0, 0], [1, 2, 2, 0, 0]],
        currentPlayer := 1, gameOver := false } 0 =
    (true,
      { board := [[1, 0, 0, 0, 0], [1, 0, 0, 0, 0], [1, 2, 2, 0, 0]],
        currentPlayer := 1, gameOver := true },
      [([(0, 0), (1, 0), (2, 0)], some 1)]) := by decide
